import Mathlib

/-!
Verification of the mirrorshuttle move/transfer engine against its
natural-language specification.

The development shallowly embeds the core of the repository:

* the single-file transfer operation `copyAndRemove`
  (cmd/mirrorshuttle/mode_move.go), modelled as an explicit state
  transition on a flat filesystem map together with a fault oracle
  (`CopyEnv`) that decides which filesystem syscalls fail, whether the
  copied byte stream is corrupted in memory or on disk, and whether the
  source file is removed externally mid-operation;
* the tree transfer walker `moveFiles` (same file), modelled as a
  depth-first walk over a snapshot of the staging tree with the exact
  `filepath.SkipDir` semantics of `afero.Walk`/`filepath.Walk`;
* the shared failure policy `walkError` and the context-aware reader
  `contextReader.Read` (helpers file of the newest revision);
* the exit-code selection of `run` (cmd/mirrorshuttle/main.go);
* the string-level exclusion matcher `isExcluded` together with
  faithful models of Go's `filepath.Clean`, `filepath.Rel`,
  `strings.TrimSpace` and `strings.HasPrefix` on which it is built.

Paths are modelled as lists of components, where a component is a list
of characters (a Go string without separators).  The byte content of a
file is a `List Nat`.  The cryptographic digest (BLAKE3 in the source)
is an abstract function parameter `hash`: the code only ever compares
digests for equality, so every theorem below holds for an arbitrary
digest function.
-/

/-- A path component: the characters of one Go path element
(no `/` inside). -/
abbrev Comp := List Char

/-- An absolute path, as the list of its components.  `[]` denotes the
filesystem root `/`. -/
abbrev GoPath := List Comp

/-- Shorthand turning a string literal into a component. -/
def comp (s : String) : Comp := s.data

/-- A directory entry of the modelled filesystem: a directory or a
regular file with its byte content. -/
inductive Entry where
  | dir : Entry
  | file : List Nat → Entry
deriving DecidableEq

/-- A flat filesystem: a partial map from absolute paths to entries.
`none` means nothing exists at that path. -/
abbrev FS := GoPath → Option Entry

/-- Write (create or overwrite) an entry, as `Create`/`Mkdir`/the target
of `Rename` do. -/
def setFS (fs : FS) (p : GoPath) (e : Entry) : FS :=
  fun q => if q = p then some e else fs q

/-- Remove an entry, as `Remove`/the source of `Rename` do. -/
def eraseFS (fs : FS) (p : GoPath) : FS :=
  fun q => if q = p then none else fs q

/-- Whether a regular file exists at `p`. -/
def isFile (fs : FS) (p : GoPath) : Bool :=
  match fs p with
  | some (.file _) => true
  | _ => false

/-- The byte content of the regular file at `p` (defaults to `[]`). -/
def fileData (fs : FS) (p : GoPath) : List Nat :=
  match fs p with
  | some (.file d) => d
  | _ => []

/-- The characters of the fixed temporary-file suffix `".mirsht"`. -/
def mirshtSuffix : Comp := ".mirsht".data

/-- `tempPath dst` is the path of the in-flight temporary file
`dst + ".mirsht"` (mode_move.go line `workingFile := dst + ".mirsht"`):
the string concatenation appends the suffix to the last path
component. -/
def tempPath : GoPath → GoPath
  | [] => []
  | [c] => [c ++ mirshtSuffix]
  | c :: rest => c :: tempPath rest

/-- The fault/environment oracle for one `copyAndRemove` invocation.
Each flag decides whether the corresponding syscall of the linear state
machine fails; `corrupt` injects in-memory corruption of the written
byte stream, `verifyContent` injects on-disk corruption observed by the
`--verify` re-read, and `srcVanishes` models an external process
removing the source file right after it has been opened (the open
handle keeps the content readable, POSIX-style). -/
structure CopyEnv where
  /-- the digest function (BLAKE3 in the source, abstract here) -/
  hash : List Nat → List Nat
  /-- `Open(src)` fails although the file exists -/
  openSrcFault : Bool
  /-- the source file is removed externally right after opening -/
  srcVanishes : Bool
  /-- `Create(workingFile)` fails -/
  createFault : Bool
  /-- `io.Copy` fails after writing the given bytes; the `Bool` marks a
  `context.Canceled` from the context-aware reader -/
  copyFault : Option (List Nat × Bool)
  /-- if set, the bytes written differ from the bytes read (in-memory
  corruption during the copy) -/
  corrupt : Option (List Nat)
  /-- `out.Sync()` fails -/
  syncFault : Bool
  /-- `in.Close()` fails -/
  closeInFault : Bool
  /-- `out.Close()` fails -/
  closeOutFault : Bool
  /-- `Rename(workingFile, dst)` fails -/
  renameFault : Bool
  /-- re-opening `dst` for the verify pass fails -/
  verifyOpenFault : Bool
  /-- reading `dst` during the verify pass fails; the `Bool` marks a
  cancellation -/
  verifyReadFault : Option Bool
  /-- closing `dst` after the verify pass fails -/
  verifyCloseFault : Bool
  /-- if set, the bytes observed by the verify re-read differ from the
  bytes stored (disk-level corruption) -/
  verifyContent : Option (List Nat)
  /-- the final `Remove(src)` fails although the file exists -/
  removeSrcFault : Bool
  /-- the cleanup `Stat(src)` returns an error that is not
  `ErrNotExist` -/
  statSrcFault : Bool
  /-- the cleanup `Remove(workingFile)` fails -/
  removeTempFault : Bool

/-- The possible errors of `copyAndRemove`, one per `return` site of the
source function. -/
inductive CopyErr where
  | openErr
  | createErr
  | ioErr (canceled : Bool)
  | syncErr
  | closeInErr
  | closeOutErr
  | memHashMismatch
  | renameErr
  | verifyOpenErr
  | verifyReadErr (canceled : Bool)
  | verifyCloseErr
  | verifyHashMismatch
  | removeErr
deriving DecidableEq

/-- The result of one `copyAndRemove` invocation: the filesystem after
the operation (cleanup included) and the function's four return values.
The Go function returns the digests as hex strings that are empty until
computed; the model returns the digest values, `none` standing for the
empty string. -/
structure CopyResult where
  fs : FS
  srcHash : Option (List Nat)
  dstHash : Option (List Nat)
  verifyHash : Option (List Nat)
  err : Option CopyErr

/-- The deferred cleanup closure of `copyAndRemove`
(mode_move.go lines 168-185): run only when the function returns an
error.  It stats `src`: on success it removes the file at the current
value of the `workingFile` variable (failures of that removal are only
logged); if `src` no longer exists, or its existence cannot be
determined, the temporary artifact is deliberately not removed. -/
def cleanupFS (env : CopyEnv) (fs : FS) (wf src : GoPath) : FS :=
  if env.statSrcFault then fs
  else if (fs src).isSome then
    if env.removeTempFault then fs else eraseFS fs wf
  else fs

/-- The final `Remove(src)` step of `copyAndRemove`
(mode_move.go lines 248-252), reached after the rename commit (and
after the optional verify pass).  At this point the `workingFile`
variable has been reassigned to `dst`, so the cleanup of a removal
failure targets the committed destination file. -/
def removeSrcStep (env : CopyEnv) (fs : FS) (src dst : GoPath)
    (sH dH : List Nat) (vH : Option (List Nat)) : CopyResult :=
  if !isFile fs src || env.removeSrcFault then
    { fs := cleanupFS env fs dst src
      srcHash := some sH, dstHash := some dH, verifyHash := vH
      err := some .removeErr }
  else
    { fs := eraseFS fs src
      srcHash := some sH, dstHash := some dH, verifyHash := vH
      err := none }

/-- The optional `--verify` pass of `copyAndRemove`
(mode_move.go lines 222-246) followed by the removal of the source.
`written` is the byte content stored at `dst` by the rename commit;
the pass re-reads it independently (`env.verifyContent` may corrupt the
observed bytes) and compares the digest with the source digest.  As in
the source, `workingFile = dst` here, so every cleanup targets the
committed destination. -/
def verifyAndRemove (env : CopyEnv) (verify : Bool) (fs : FS)
    (src dst : GoPath) (written : List Nat) (sH dH : List Nat) :
    CopyResult :=
  if verify then
    if env.verifyOpenFault then
      { fs := cleanupFS env fs dst src
        srcHash := some sH, dstHash := some dH, verifyHash := none
        err := some .verifyOpenErr }
    else
      match env.verifyReadFault with
      | some canceled =>
        { fs := cleanupFS env fs dst src
          srcHash := some sH, dstHash := some dH, verifyHash := none
          err := some (.verifyReadErr canceled) }
      | none =>
        if env.verifyCloseFault then
          { fs := cleanupFS env fs dst src
            srcHash := some sH, dstHash := some dH, verifyHash := none
            err := some .verifyCloseErr }
        else
          if sH ≠ env.hash (env.verifyContent.getD written) then
            { fs := cleanupFS env fs dst src
              srcHash := some sH, dstHash := some dH
              verifyHash := some (env.hash (env.verifyContent.getD written))
              err := some .verifyHashMismatch }
          else
            removeSrcStep env fs src dst sH dH
              (some (env.hash (env.verifyContent.getD written)))
  else
    removeSrcStep env fs src dst sH dH none

/-- Shallow embedding of `copyAndRemove`
(cmd/mirrorshuttle/mode_move.go lines 153-253).  The linear state
machine: open source, create temporary file `dst + ".mirsht"`
(truncating any stale one), copy while hashing both the bytes read and
the bytes written, sync, close both handles, compare the two digests,
atomically rename the temporary file onto `dst`, optionally re-read and
re-verify, and finally remove the source.  Any error return after the
temporary file was created runs the deferred cleanup `cleanupFS` with
the current value of `workingFile` (the temporary path before the
rename, the destination path after it). -/
def copyAndRemove (env : CopyEnv) (verify : Bool) (fs0 : FS)
    (src dst : GoPath) : CopyResult :=
  let wf := tempPath dst
  if !isFile fs0 src || env.openSrcFault then
    { fs := fs0, srcHash := none, dstHash := none, verifyHash := none
      err := some .openErr }
  else
    let content := fileData fs0 src
    let fs1 := if env.srcVanishes then eraseFS fs0 src else fs0
    if env.createFault then
      { fs := fs1, srcHash := none, dstHash := none, verifyHash := none
        err := some .createErr }
    else
      let fs2 := setFS fs1 wf (.file [])
      match env.copyFault with
      | some (written, canceled) =>
        let fs3 := setFS fs2 wf (.file written)
        { fs := cleanupFS env fs3 wf src
          srcHash := none, dstHash := none, verifyHash := none
          err := some (.ioErr canceled) }
      | none =>
        let written := env.corrupt.getD content
        let fs3 := setFS fs2 wf (.file written)
        if env.syncFault then
          { fs := cleanupFS env fs3 wf src
            srcHash := none, dstHash := none, verifyHash := none
            err := some .syncErr }
        else if env.closeInFault then
          { fs := cleanupFS env fs3 wf src
            srcHash := none, dstHash := none, verifyHash := none
            err := some .closeInErr }
        else if env.closeOutFault then
          { fs := cleanupFS env fs3 wf src
            srcHash := none, dstHash := none, verifyHash := none
            err := some .closeOutErr }
        else
          let sH := env.hash content
          let dH := env.hash written
          if sH ≠ dH then
            { fs := cleanupFS env fs3 wf src
              srcHash := some sH, dstHash := some dH, verifyHash := none
              err := some .memHashMismatch }
          else if env.renameFault then
            { fs := cleanupFS env fs3 wf src
              srcHash := some sH, dstHash := some dH, verifyHash := none
              err := some .renameErr }
          else
            let fs4 := setFS (eraseFS fs3 wf) dst (.file written)
            verifyAndRemove env verify fs4 src dst written sH dH

/-- The fault-free environment with digest function `h`: every syscall
succeeds, nothing is corrupted, nothing vanishes. -/
def benignEnv (h : List Nat → List Nat) : CopyEnv :=
  { hash := h
    openSrcFault := false, srcVanishes := false, createFault := false
    copyFault := none, corrupt := none
    syncFault := false, closeInFault := false, closeOutFault := false
    renameFault := false
    verifyOpenFault := false, verifyReadFault := none
    verifyCloseFault := false, verifyContent := none
    removeSrcFault := false, statSrcFault := false
    removeTempFault := false }

/-!
### Error values, shared failure policy, context-aware reader

`GoErr` models Go `error` values as the walker sees them:
`context.Canceled`, errors returned by `copyAndRemove`, other runtime
errors, and `fmt.Errorf("... (%w)", e)` wrapping (which preserves
`errors.Is`).
-/

/-- A Go error value, as relevant to the walker. -/
inductive GoErr where
  | canceled
  | copyFail (e : CopyErr)
  | runtime (tag : Nat)
  | wrap (e : GoErr)
deriving DecidableEq

/-- `errors.Is(err, context.Canceled)`: true for `context.Canceled`
itself and for any `%w`-wrapping of it. -/
def errorsIsCanceled : GoErr → Bool
  | .canceled => true
  | .wrap e => errorsIsCanceled e
  | _ => false

/-- The value a `filepath.WalkFunc` callback returns: `nil`,
`filepath.SkipDir`, or a real error. -/
inductive WalkSig where
  | ok
  | skipDir
  | fail (e : GoErr)
deriving DecidableEq

/-- The walker-relevant part of `programState` (main.go): the two
outcome flags.  (The source also keeps `createdDirs`/`movedFiles`
counters, used only for reporting.)  The source field
`hasPartialFailures` is called `hasPartFailures` here. -/
structure ProgState where
  hasUnmovedFiles : Bool
  hasPartFailures : Bool
deriving DecidableEq

/-- Shallow embedding of the shared failure policy `walkError`
(helpers file of the newest revision, two arguments): a
non-cancellation error under failure-tolerant mode is logged, sets the
partial-failures flag and is skipped (skipping the whole subtree when
the failed entry is a directory); every other error — in particular
any cancellation — is returned as-is, aborting the walk. -/
def walkError (skipFailed : Bool) (st : ProgState) (eIsDir : Bool)
    (err : GoErr) : ProgState × WalkSig :=
  if !errorsIsCanceled err && skipFailed then
    ({ st with hasPartFailures := true },
      if eIsDir then .skipDir else .ok)
  else
    (st, .fail err)

/-- Shallow embedding of `contextReader.Read`: before each chunk read,
if the context is done, return `(0, context.Canceled)` instead of
delegating to the underlying reader. -/
def contextReaderRead (ctxDone : Bool)
    (underlying : Nat × Option GoErr) : Nat × Option GoErr :=
  if ctxDone then (0, some .canceled) else underlying

/-!
### The tree transfer walker

`moveFiles` (cmd/mirrorshuttle/mode_move.go lines 16-151) walks the
staging tree with `afero.Walk` and moves every regular file to its
computed destination.  The model walks a snapshot `FTree` of the
staging tree in listing order while threading the filesystem map; this
is exact for the modelled domain (no concurrent external mutation, and
a protected root that is not strictly inside the staging root, so the
run never mutates a not-yet-listed part of the staging tree).  The
model leaves out the per-entry context check and the tolerance for
entries disappearing mid-walk (no cancellation and no external
mutation in the modelled domain), and stat/mkdir syscalls on the
walker level always succeed; the fault oracle of the per-file
operation is retained.
-/

/-- A snapshot of a directory tree: regular files with their content,
directories with their children in listing order. -/
inductive FTree where
  | file (data : List Nat)
  | dir (children : List (Comp × FTree))

/-- Whether a tree node is a directory (the `FileInfo.IsDir` of the
visited entry). -/
def FTree.isDir : FTree → Bool
  | .file _ => false
  | .dir _ => true

/-- One structured log event of the walker, with the path data the
source logs.  These are the skip/conflict/creation/move classification
outputs of a run. -/
inductive MEvent where
  | skippedExcludedSrc (p : GoPath)
  | skippedExcludedDst (p : GoPath)
  | skippedMirrorIntoMirror (p : GoPath)
  | dirCreated (p : GoPath)
  | conflictExists (src dst : GoPath)
  | moved (src dst : GoPath)
  | failureSkipped
deriving DecidableEq

/-- The configuration options `moveFiles` reads
(`programOptions`, validated: roots cleaned absolute and distinct,
excludes cleaned absolute). -/
structure MoveCfg where
  mirrorRoot : GoPath
  realRoot : GoPath
  excludes : List GoPath
  direct : Bool
  verify : Bool
  skipFailed : Bool
  dryRun : Bool

/-- The walker-level environment: the fault oracle for the per-file
copy operation, plus whether the direct-mode `Rename` syscall fails
(forcing the copy-and-remove fallback). -/
structure WalkEnv where
  copyEnv : CopyEnv
  directRenameFault : Bool

/-- The mutable state threaded through a walk: the filesystem and the
run's outcome record (flags and classification events). -/
structure WState where
  fs : FS
  hasUnmovedFiles : Bool
  hasPartFailures : Bool
  events : List MEvent

/-- Whether a component's first two characters are `'.'`, `'.'` —
exactly when the rendered relative path of a descendant starts with
the string `".."`. -/
def compDD : Comp → Bool
  | '.' :: '.' :: _ => true
  | _ => false

/-- The component-level image of the string-level exclusion matcher
`isExcluded` on normalized absolute paths (the agreement is proved in
the development of claim C2 below): a path is excluded when it equals
an entry, or is a strict descendant of an entry whose first component
below the entry does not begin with the two characters `".."` (the
latter restriction is inherited from the source's
`strings.HasPrefix(rel, "..")` test). -/
def isExcludedP (p : GoPath) (es : List GoPath) : Bool :=
  es.any fun e =>
    p == e ||
      (e.isPrefixOf p && !(p == e) && !compDD ((p.drop e.length).headD []))

/-- Shallow embedding of the one-argument `walkError` revision that
`mode_move.go`'s walker calls: under failure-tolerant mode the error
is logged, the partial-failures flag is set and the entry is skipped
(`return nil`); otherwise the error aborts the walk. -/
def walkErrorMove (cfg : MoveCfg) (s : WState) (e : GoErr) :
    WState × WalkSig :=
  if cfg.skipFailed then
    ({ s with hasPartFailures := true
              events := s.events ++ [.failureSkipped] }, .ok)
  else
    (s, .fail e)

/-- `filepath.Rel(root, p)` for the walked entries: `p` always has
`root` as a component prefix, and the relative path is the list of
remaining components. -/
def relUnder (root p : GoPath) : GoPath := p.drop root.length

/-- The walk callback of `moveFiles` (mode_move.go lines 32-145) on
entry `p` of the staging tree: source-side exclusion check,
destination path computation, self-containment guard, destination-side
exclusion check, then the directory branch (create missing destination
directories, respecting dry-run) or the file branch (refuse to
overwrite an existing destination, respecting dry-run, else direct
rename or copy-and-remove, failures routed through the shared failure
policy). -/
def moveVisit (cfg : MoveCfg) (wenv : WalkEnv) (s : WState)
    (p : GoPath) (t : FTree) : WState × WalkSig :=
  if isExcludedP p cfg.excludes then
    ({ s with events := s.events ++ [.skippedExcludedSrc p] },
      if t.isDir then .skipDir else .ok)
  else
    let relPath := relUnder cfg.mirrorRoot p
    let movePath := cfg.realRoot ++ relPath
    if movePath = cfg.mirrorRoot then
      ({ s with events := s.events ++ [.skippedMirrorIntoMirror movePath] },
        .skipDir)
    else if isExcludedP movePath cfg.excludes then
      ({ s with events := s.events ++ [.skippedExcludedDst movePath] },
        if t.isDir then .skipDir else .ok)
    else if t.isDir then
      match s.fs movePath with
      | none =>
        if !cfg.dryRun then
          ({ s with fs := setFS s.fs movePath .dir
                    events := s.events ++ [.dirCreated movePath] }, .ok)
        else
          ({ s with events := s.events ++ [.dirCreated movePath] }, .ok)
      | some _ => (s, .ok)
    else
      match s.fs movePath with
      | some _ =>
        ({ s with hasUnmovedFiles := true
                  events := s.events ++ [.conflictExists p movePath] },
          .ok)
      | none =>
        if !cfg.dryRun then
          if cfg.direct && !wenv.directRenameFault then
            ({ s with
                fs := setFS (eraseFS s.fs p) movePath
                  (.file (fileData s.fs p))
                events := s.events ++ [.moved p movePath] }, .ok)
          else
            match (copyAndRemove wenv.copyEnv cfg.verify s.fs p
                movePath).err with
            | none =>
              ({ s with
                  fs := (copyAndRemove wenv.copyEnv cfg.verify s.fs p
                    movePath).fs
                  events := s.events ++ [.moved p movePath] }, .ok)
            | some e =>
              walkErrorMove cfg
                { s with
                  fs := (copyAndRemove wenv.copyEnv cfg.verify s.fs p
                    movePath).fs }
                (.wrap (.copyFail e))
        else
          ({ s with events := s.events ++ [.moved p movePath] }, .ok)

mutual

/-- `filepath.Walk`'s recursive `walk` on one entry: run the callback;
`SkipDir` on a directory skips its subtree and is absorbed, `SkipDir`
on a file propagates to the caller, any other error propagates; after
a `nil` callback on a directory, walk its children in listing
order. -/
def walkRec (cfg : MoveCfg) (wenv : WalkEnv) (p : GoPath) (t : FTree)
    (s : WState) : WState × WalkSig :=
  match moveVisit cfg wenv s p t with
  | (s1, .ok) =>
    match t with
    | .file _ => (s1, .ok)
    | .dir ch => walkChildren cfg wenv p ch s1
  | (s1, .skipDir) => if t.isDir then (s1, .ok) else (s1, .skipDir)
  | (s1, .fail e) => (s1, .fail e)

/-- The loop of `filepath.Walk`'s `walk` over a directory's children:
a `SkipDir` bubbling out of a file child skips the remaining siblings
(it propagates to the parent, where it is absorbed because the parent
is a directory); a `SkipDir` out of a directory child was already
absorbed; any other error aborts. -/
def walkChildren (cfg : MoveCfg) (wenv : WalkEnv) (p : GoPath)
    (ch : List (Comp × FTree)) (s : WState) : WState × WalkSig :=
  match ch with
  | [] => (s, .ok)
  | (n, c) :: rest =>
    match walkRec cfg wenv (p ++ [n]) c s with
    | (s1, .ok) => walkChildren cfg wenv p rest s1
    | (s1, .skipDir) =>
      if c.isDir then walkChildren cfg wenv p rest s1 else (s1, .skipDir)
    | (s1, .fail e) => (s1, .fail e)

end

/-- The errors `moveFiles` can return. -/
inductive MoveErr where
  | mirrorNotExist
  | targetNotExist
  | walkFail (e : GoErr)
deriving DecidableEq

/-- Shallow embedding of `moveFiles` (mode_move.go lines 16-151):
check that the staging root and the protected root exist, then walk
the staging tree; a top-level `SkipDir` result of the walk is `nil`
(as in `filepath.Walk`). -/
def moveFiles (cfg : MoveCfg) (wenv : WalkEnv) (fs0 : FS) (t : FTree) :
    WState × Option MoveErr :=
  let s0 : WState :=
    { fs := fs0, hasUnmovedFiles := false, hasPartFailures := false
      events := [] }
  if (fs0 cfg.mirrorRoot).isNone then (s0, some .mirrorNotExist)
  else if (fs0 cfg.realRoot).isNone then (s0, some .targetNotExist)
  else
    match walkRec cfg wenv cfg.mirrorRoot t s0 with
    | (s, .fail e) => (s, some (.walkFail e))
    | (s, _) => (s, none)

/-- Return code `0` of main.go. -/
def exitCodeSuccess : Nat := 0

/-- Return code `1` of main.go. -/
def exitCodeFailure : Nat := 1

/-- Return code `2` of main.go (`exitCodePartialFailure` there). -/
def exitCodePartFailure : Nat := 2

/-- Return code `4` of main.go (`exitCodeUnmovedFiles`). -/
def exitCodeUnmovedFiles : Nat := 4

/-- The exit-status selection of `run` (cmd/mirrorshuttle/main.go lines
509-561) for a move-mode run: a `moveFiles` error exits with the
generic failure code; otherwise partial failures take precedence over
unmoved files, and only then comes success. -/
def runExitCode (res : WState × Option MoveErr) : Nat :=
  match res.2 with
  | some _ => exitCodeFailure
  | none =>
    if res.1.hasPartFailures then exitCodePartFailure
    else if res.1.hasUnmovedFiles then exitCodeUnmovedFiles
    else exitCodeSuccess

/-- A whole move-mode run: `moveFiles` followed by `run`'s exit-status
selection. -/
def runMove (cfg : MoveCfg) (wenv : WalkEnv) (fs0 : FS) (t : FTree) :
    Nat :=
  runExitCode (moveFiles cfg wenv fs0 t)

/-!
### The string-level exclusion matcher

`isExcluded` (helpers file, lines 109-122) works on path *strings*.
Go strings are modelled as `List Char`.  `filepath.Clean` and
`filepath.Rel` are modelled from their documented algorithms on the
component structure of the path string (exactly the Go behaviour on
the absolute paths the matcher is used with).
-/

/-- The ASCII white-space characters trimmed by `strings.TrimSpace`. -/
def isSpace (c : Char) : Bool :=
  c = ' ' || c = '\t' || c = '\n' || c = '\r' || c.toNat = 11 || c.toNat = 12

/-- `strings.TrimSpace`: drop white space from both ends. -/
def trimSpaceGo (s : List Char) : List Char :=
  ((s.dropWhile isSpace).reverse.dropWhile isSpace).reverse

/-- `strings.HasPrefix`. -/
def hasPrefixGo (pre s : List Char) : Bool := pre.isPrefixOf s

/-- Split a string at every `'/'` (auxiliary, accumulator reversed). -/
def splitSlashAux : List Char → List Char → List (List Char)
  | [], acc => [acc.reverse]
  | c :: rest, acc =>
    if c = '/' then acc.reverse :: splitSlashAux rest []
    else splitSlashAux rest (c :: acc)

/-- Split a string at every `'/'` (as `strings.Split(s, "/")`). -/
def splitSlash (s : List Char) : List (List Char) := splitSlashAux s []

/-- Join components with `'/'` separators. -/
def joinSlash : List (List Char) → List Char
  | [] => []
  | [c] => c
  | c :: rest => c ++ '/' :: joinSlash rest

/-- One step of `filepath.Clean`'s element processing (stack kept
reversed): empty and `"."` elements are dropped; `".."` pops the last
kept element unless it is itself a kept `".."`, is dropped at the root
of a rooted path, and is kept at the start of an unrooted path. -/
def cleanStep (rooted : Bool) (stack : List (List Char))
    (c : List Char) : List (List Char) :=
  if c = [] || c = ['.'] then stack
  else if c = ['.', '.'] then
    match stack with
    | [] => if rooted then [] else [['.', '.']]
    | top :: rest =>
      if top = ['.', '.'] then ['.', '.'] :: stack else rest
  else c :: stack

/-- `filepath.Clean`'s element processing over all elements. -/
def cleanParts (rooted : Bool) (cs : List (List Char)) :
    List (List Char) :=
  (cs.foldl (cleanStep rooted) []).reverse

/-- `filepath.Clean` (Unix rules): shortest lexically equivalent path. -/
def cleanGo (s : List Char) : List Char :=
  if s = [] then ['.']
  else
    let rooted := s.head? = some '/'
    let parts := cleanParts rooted (splitSlash s)
    if rooted then '/' :: joinSlash parts
    else if parts = [] then ['.'] else joinSlash parts

/-- The components of an already-cleaned path (empty for `"."` and for
the root `"/"`). -/
def partsOfClean (s : List Char) : List (List Char) :=
  if s = ['.'] then []
  else
    match s with
    | '/' :: rest => if rest = [] then [] else splitSlash rest
    | _ => if s = [] then [] else splitSlash s

/-- Drop the longest common component prefix of two paths, returning
both remainders (the element-wise scan of `filepath.Rel`). -/
def dropCommon :
    List (List Char) → List (List Char) →
      List (List Char) × List (List Char)
  | a :: as, b :: bs =>
    if a = b then dropCommon as bs else (a :: as, b :: bs)
  | as, bs => (as, bs)

/-- `filepath.Rel(base, targ)` (Unix rules): clean both, equal paths
give `"."`, mixing absolute and relative gives an error, a remaining
`".."` base element gives an error, and otherwise the result is one
`".."` per remaining base element followed by the remaining target
elements. -/
def relGo (base targ : List Char) : Option (List Char) :=
  let bc := cleanGo base
  let tc := cleanGo targ
  if bc = tc then some ['.']
  else if (bc.head? = some '/') ≠ (tc.head? = some '/') then none
  else
    let rem := dropCommon (partsOfClean bc) (partsOfClean tc)
    if rem.1.head? = some ['.', '.'] then none
    else
      let res := rem.1.map (fun _ => ['.', '.']) ++ rem.2
      some (if res = [] then ['.'] else joinSlash res)

/-- Shallow embedding of `isExcluded` (helpers file, lines 109-122):
the candidate path is cleaned and trimmed, then compared against every
exclusion entry: equality, or a relative path from the entry to the
candidate that does not start with the string `".."`. -/
def isExcludedChar (path : List Char) (excludes : List (List Char)) :
    Bool :=
  let p := cleanGo (trimSpaceGo path)
  excludes.any fun excl =>
    p == excl ||
      (match relGo excl p with
       | some r => !hasPrefixGo ['.', '.'] r
       | none => false)

/-- Render a component path as the absolute path string it denotes. -/
def renderAbs (p : GoPath) : List Char := '/' :: joinSlash p

/-- A component that survives normalization unchanged: nonempty, no
separator, no white space, and not one of the special elements `"."`
and `".."`. -/
def normalComp (c : Comp) : Bool :=
  !(c = []) && !(c = ['.']) && !(c = ['.', '.']) &&
    c.all (fun ch => !(ch = '/') && !isSpace ch)

/-- A normalized absolute path: every component normal. -/
def normalPath (p : GoPath) : Bool := p.all normalComp

/-- The claim's spec-side descendant relation, stated on components:
`p` is `e` or lies strictly below `e`. -/
def isStrictDescendantSpec (p e : GoPath) : Bool :=
  e.isPrefixOf p && !(p == e)

/-- The exclusion predicate exactly as claim C2 words it: `p` equals
some entry or is a strict descendant of some entry. -/
def isExcludedSpec (p : GoPath) (es : List GoPath) : Bool :=
  es.any fun e => p == e || isStrictDescendantSpec p e

/-!
### Static tree path sets

Helper functions enumerating the entry paths of a snapshot tree, used
to state frame conditions of whole-run theorems.
-/

mutual

/-- All entry paths of the subtree rooted at `p` (the root entry
included), in visit order. -/
def entryPaths (p : GoPath) : FTree → List GoPath
  | .file _ => [p]
  | .dir ch => p :: entryPathsList p ch

/-- All entry paths of a children list of a directory at `p`. -/
def entryPathsList (p : GoPath) :
    List (Comp × FTree) → List GoPath
  | [] => []
  | (n, c) :: rest => entryPaths (p ++ [n]) c ++ entryPathsList p rest

end

mutual

/-- The regular-file entries (path and content) of the subtree at
`p`. -/
def fileEntries (p : GoPath) : FTree → List (GoPath × List Nat)
  | .file d => [(p, d)]
  | .dir ch => fileEntriesList p ch

/-- The regular-file entries of a children list of a directory at
`p`. -/
def fileEntriesList (p : GoPath) :
    List (Comp × FTree) → List (GoPath × List Nat)
  | [] => []
  | (n, c) :: rest =>
    fileEntries (p ++ [n]) c ++ fileEntriesList p rest

end

/-- Distinct first components in a key-value list. -/
def nodupKeys : List (Comp × FTree) → Bool
  | [] => true
  | (n, _) :: rest => rest.all (fun x => !(x.1 = n)) && nodupKeys rest

mutual

/-- Every directory of the tree lists pairwise distinct child
names. -/
def treeNodup : FTree → Bool
  | .file _ => true
  | .dir ch => nodupKeys ch && treeNodupList ch

/-- Pairwise distinctness and recursion over a children list. -/
def treeNodupList : List (Comp × FTree) → Bool
  | [] => true
  | (_, c) :: rest => treeNodup c && treeNodupList rest

end

/-- Strict component-prefix test. -/
def strictPrefixOf (a b : GoPath) : Bool := a.isPrefixOf b && !(a == b)

/-- The destination path the walker computes for a visited staging
path: `filepath.Join(realRoot, rel(mirrorRoot, path))` of
`moveFiles`. -/
def mpOf (cfg : MoveCfg) (e : GoPath) : GoPath :=
  cfg.realRoot ++ relUnder cfg.mirrorRoot e

/-!
### Concrete run scenarios

Small concrete staging/protected trees used to evaluate whole runs of
the modelled walker.
-/

/-- The identity digest, used in concrete evaluations. -/
def idHash : List Nat → List Nat := fun l => l

/-- Baseline configuration: staging root `/mirror`, protected root
`/real`, no excludes, no options. -/
def cfgBase : MoveCfg :=
  { mirrorRoot := [comp "mirror"], realRoot := [comp "real"]
    excludes := [], direct := false, verify := false
    skipFailed := false, dryRun := false }

/-- Fault-free walker environment with the identity digest. -/
def wenvBenign : WalkEnv :=
  { copyEnv := benignEnv idHash, directRenameFault := false }

/-- Scenario "conflict": the staging tree holds `file.txt` with bytes
`[1, 2]`; the protected tree already holds a different `file.txt`. -/
def treeConflict : FTree := .dir [(comp "file.txt", .file [1, 2])]

/-- The filesystem of the conflict scenario. -/
def fsConflict : FS := fun q =>
  if q = [comp "mirror"] then some .dir
  else if q = [comp "mirror", comp "file.txt"] then some (.file [1, 2])
  else if q = [comp "real"] then some .dir
  else if q = [comp "real", comp "file.txt"] then some (.file [3])
  else none

/-- Scenario "both flags": `a.txt` will fail to copy (sync fault),
`file.txt` hits an existing destination file. -/
def treeTwo : FTree :=
  .dir [(comp "a.txt", .file [5]), (comp "file.txt", .file [1, 2])]

/-- The filesystem of the both-flags scenario. -/
def fsTwo : FS := fun q =>
  if q = [comp "mirror"] then some .dir
  else if q = [comp "mirror", comp "a.txt"] then some (.file [5])
  else if q = [comp "mirror", comp "file.txt"] then some (.file [1, 2])
  else if q = [comp "real"] then some .dir
  else if q = [comp "real", comp "file.txt"] then some (.file [3])
  else none

/-- Configuration of the nested scenario: the staging root `/r/m` lies
inside the protected root `/r`. -/
def cfgNest : MoveCfg :=
  { cfgBase with mirrorRoot := [comp "r", comp "m"]
                 realRoot := [comp "r"] }

/-- Nested scenario tree: a regular file named `m` (whose destination
is the staging root itself) followed by a sibling `z.txt`. -/
def treeNest : FTree :=
  .dir [(comp "m", .file [1]), (comp "z.txt", .file [2])]

/-- The filesystem of the nested scenario. -/
def fsNest : FS := fun q =>
  if q = [comp "r"] then some .dir
  else if q = [comp "r", comp "m"] then some .dir
  else if q = [comp "r", comp "m", comp "m"] then some (.file [1])
  else if q = [comp "r", comp "m", comp "z.txt"] then some (.file [2])
  else none

/-- Stale-temporary scenario tree: files `x` and `x.mirsht` in the
staging tree. -/
def treeStale : FTree :=
  .dir [(comp "x", .file [1]), (comp "x.mirsht", .file [2])]

/-- The filesystem of the stale-temporary scenario: a stale temporary
file `/real/x.mirsht` is left over from an interrupted earlier run. -/
def fsStale : FS := fun q =>
  if q = [comp "mirror"] then some .dir
  else if q = [comp "mirror", comp "x"] then some (.file [1])
  else if q = [comp "mirror", comp "x.mirsht"] then some (.file [2])
  else if q = [comp "real"] then some .dir
  else if q = [comp "real", comp "x.mirsht"] then some (.file [9])
  else none

/-!
## Theorems

### Basic facts about the filesystem model
-/

theorem setFS_same (fs : FS) (p : GoPath) (e : Entry) :
    setFS fs p e p = some e := by
  simp [setFS]

theorem setFS_other (fs : FS) (p q : GoPath) (e : Entry) (h : q ≠ p) :
    setFS fs p e q = fs q := by
  simp [setFS, h]

theorem eraseFS_same (fs : FS) (p : GoPath) : eraseFS fs p p = none := by
  simp [eraseFS]

theorem eraseFS_other (fs : FS) (p q : GoPath) (h : q ≠ p) :
    eraseFS fs p q = fs q := by
  simp [eraseFS, h]

theorem tempPath_ne (d : GoPath) (hd : d ≠ []) : tempPath d ≠ d := by
  induction d with
  | nil => simp at hd
  | cons c rest ih =>
    cases rest with
    | nil =>
      simp only [tempPath, ne_eq, List.cons.injEq, and_true]
      intro h
      have hlen : (c ++ mirshtSuffix).length = c.length := by rw [h]
      simp [mirshtSuffix] at hlen
    | cons c2 rest2 =>
      simp only [tempPath, ne_eq, List.cons.injEq]
      intro hcon
      exact ih (by simp) hcon.2

/-!
### The copy-based single-file transfer: reaching the commit
-/

/-- Under an environment that is fault-free up to and including the
rename (and without in-memory corruption), `copyAndRemove` reaches the
commit and continues with the verify/remove phase on the committed
filesystem. -/
theorem copyAndRemove_reach_commit (env : CopyEnv) (verify : Bool)
    (fs0 : FS) (src dst : GoPath)
    (hfile : isFile fs0 src = true)
    (h1 : env.openSrcFault = false) (h2 : env.createFault = false)
    (h3 : env.copyFault = none) (h4 : env.corrupt = none)
    (h5 : env.syncFault = false) (h6 : env.closeInFault = false)
    (h7 : env.closeOutFault = false) (h8 : env.renameFault = false) :
    copyAndRemove env verify fs0 src dst =
      verifyAndRemove env verify
        (setFS
          (eraseFS
            (setFS
              (setFS (if env.srcVanishes then eraseFS fs0 src else fs0)
                (tempPath dst) (.file []))
              (tempPath dst) (.file (fileData fs0 src)))
            (tempPath dst))
          dst (.file (fileData fs0 src)))
        src dst (fileData fs0 src)
        (env.hash (fileData fs0 src)) (env.hash (fileData fs0 src)) := by
  unfold copyAndRemove
  simp [hfile, h1, h2, h3, h4, h5, h6, h7, h8]

/-- Pointwise value of the committed filesystem of
`copyAndRemove_reach_commit`. -/
theorem commit_fs_eval (fs0 : FS) (src dst : GoPath) (c : List Nat)
    (hd : dst ≠ []) (vanish : Bool) (q : GoPath) :
    setFS
      (eraseFS
        (setFS
          (setFS (if vanish then eraseFS fs0 src else fs0)
            (tempPath dst) (.file []))
          (tempPath dst) (.file c))
        (tempPath dst))
      dst (.file c) q =
      (if q = dst then some (.file c)
       else if q = tempPath dst then none
       else if vanish ∧ q = src then none
       else fs0 q) := by
  by_cases hq : q = dst
  · simp [hq, setFS]
  · by_cases hw : q = tempPath dst
    · have : q ≠ dst := hq
      simp [hw, hq, setFS, eraseFS, (tempPath_ne dst hd)]
    · by_cases hv : vanish
      · by_cases hs : q = src
        · subst hs
          simp [setFS, eraseFS, hq, hw, hv]
        · simp [setFS, eraseFS, hq, hw, hv, hs]
      · simp [setFS, eraseFS, hq, hw, hv]

theorem isFile_isSome (fs : FS) (p : GoPath) (h : isFile fs p = true) :
    (fs p).isSome = true := by
  unfold isFile at h
  cases hfs : fs p with
  | none => rw [hfs] at h; simp at h
  | some e => simp

theorem isFile_congr (fs fs' : FS) (p : GoPath) (h : fs p = fs' p) :
    isFile fs p = isFile fs' p := by
  unfold isFile
  rw [h]

/-- Effect of the deferred cleanup when it runs after the commit
(`workingFile = dst`): the source is untouched, and the committed
destination survives exactly when the source has vanished, the stat
failed, or the removal failed. -/
theorem cleanupFS_commit (env : CopyEnv) (fs4 fs0 : FS)
    (src dst : GoPath) (c : List Nat) (hsd : src ≠ dst)
    (hsrc : fs4 src = if env.srcVanishes = true then none else fs0 src)
    (hdst : fs4 dst = some (.file c))
    (hfile : isFile fs0 src = true) :
    cleanupFS env fs4 dst src src = fs4 src ∧
    cleanupFS env fs4 dst src dst =
      (if env.srcVanishes || env.statSrcFault || env.removeTempFault
        then some (.file c) else none) := by
  unfold cleanupFS
  by_cases hstat : env.statSrcFault
  · simp [hstat, hdst]
  · by_cases hv : env.srcVanishes
    · have : fs4 src = none := by rw [hsrc]; simp [hv]
      simp [hstat, hv, this, hdst]
    · have hs' : fs4 src = fs0 src := by rw [hsrc]; simp [hv]
      have : (fs4 src).isSome = true := by
        rw [hs']; exact isFile_isSome fs0 src hfile
      by_cases hrt : env.removeTempFault
      · simp [hstat, hv, hrt, this, hdst]
      · simp [hstat, hv, hrt, this, eraseFS,
          fun h : src = dst => hsd h]

/-- Names the two branch facts used repeatedly after the commit. -/
theorem commit_src_dst (env : CopyEnv) (fs0 : FS) (src dst : GoPath)
    (hd : dst ≠ []) (hsd : src ≠ dst) (hts : src ≠ tempPath dst) :
    (setFS
        (eraseFS
          (setFS
            (setFS (if env.srcVanishes then eraseFS fs0 src else fs0)
              (tempPath dst) (.file []))
            (tempPath dst) (.file (fileData fs0 src)))
          (tempPath dst))
        dst (.file (fileData fs0 src))) src =
      (if env.srcVanishes = true then none else fs0 src) ∧
    (setFS
        (eraseFS
          (setFS
            (setFS (if env.srcVanishes then eraseFS fs0 src else fs0)
              (tempPath dst) (.file []))
            (tempPath dst) (.file (fileData fs0 src)))
          (tempPath dst))
        dst (.file (fileData fs0 src))) dst =
      some (.file (fileData fs0 src)) := by
  constructor
  · rw [commit_fs_eval fs0 src dst (fileData fs0 src) hd env.srcVanishes src]
    by_cases hv : env.srcVanishes <;> simp [hsd, hts, hv]
  · rw [commit_fs_eval fs0 src dst (fileData fs0 src) hd env.srcVanishes dst]
    simp

/-- The `Remove(src)` step after the commit, when the source has
vanished or its removal fails: the error is reported and the cleanup
runs against the committed destination. -/
theorem removeSrcStep_commit (env : CopyEnv) (fs4 fs0 : FS)
    (src dst : GoPath) (hsd : src ≠ dst)
    (hsrc : fs4 src = if env.srcVanishes = true then none else fs0 src)
    (hdst : fs4 dst = some (.file (fileData fs0 src)))
    (hfile : isFile fs0 src = true)
    (hfail : env.srcVanishes = true ∨ env.removeSrcFault = true)
    (sh dh : List Nat) (vh : Option (List Nat)) :
    (removeSrcStep env fs4 src dst sh dh vh).err.isSome = true ∧
    (removeSrcStep env fs4 src dst sh dh vh).fs src = fs4 src ∧
    (removeSrcStep env fs4 src dst sh dh vh).fs dst =
      (if env.srcVanishes || env.statSrcFault || env.removeTempFault
        then some (.file (fileData fs0 src)) else none) := by
  have hclean := cleanupFS_commit env fs4 fs0 src dst (fileData fs0 src)
    hsd hsrc hdst hfile
  have hcond : (!isFile fs4 src || env.removeSrcFault) = true := by
    rcases hfail with hv | hr
    · have : isFile fs4 src = false := by
        unfold isFile
        rw [hsrc]
        simp [hv]
      simp [this]
    · simp [hr]
  unfold removeSrcStep
  rw [if_pos hcond]
  exact ⟨rfl, hclean.1, hclean.2⟩

/-- Post-commit behaviour of the verify/remove phase: any failure after
the rename runs the cleanup against the committed destination. -/
theorem verifyAndRemove_commit (env : CopyEnv) (verify : Bool)
    (fs4 fs0 : FS) (src dst : GoPath) (hsd : src ≠ dst)
    (hsrc : fs4 src = if env.srcVanishes = true then none else fs0 src)
    (hdst : fs4 dst = some (.file (fileData fs0 src)))
    (hfile : isFile fs0 src = true)
    (hfail :
      ((verify &&
        (env.verifyOpenFault || env.verifyReadFault.isSome ||
          env.verifyCloseFault ||
          decide (env.hash (fileData fs0 src) ≠
            env.hash (env.verifyContent.getD (fileData fs0 src))))) ||
        env.srcVanishes || env.removeSrcFault) = true) :
    ((verifyAndRemove env verify fs4 src dst (fileData fs0 src)
        (env.hash (fileData fs0 src))
        (env.hash (fileData fs0 src))).err).isSome = true ∧
    (verifyAndRemove env verify fs4 src dst (fileData fs0 src)
        (env.hash (fileData fs0 src))
        (env.hash (fileData fs0 src))).fs src = fs4 src ∧
    (verifyAndRemove env verify fs4 src dst (fileData fs0 src)
        (env.hash (fileData fs0 src))
        (env.hash (fileData fs0 src))).fs dst =
      (if env.srcVanishes || env.statSrcFault || env.removeTempFault
        then some (.file (fileData fs0 src)) else none) := by
  have hclean := cleanupFS_commit env fs4 fs0 src dst (fileData fs0 src)
    hsd hsrc hdst hfile
  have herr : ∀ (e : CopyErr) (sh dh vh : Option (List Nat)),
      (CopyResult.mk (cleanupFS env fs4 dst src) sh dh vh
          (some e)).err.isSome = true ∧
      (CopyResult.mk (cleanupFS env fs4 dst src) sh dh vh
          (some e)).fs src = fs4 src ∧
      (CopyResult.mk (cleanupFS env fs4 dst src) sh dh vh
          (some e)).fs dst =
        (if env.srcVanishes || env.statSrcFault || env.removeTempFault
          then some (.file (fileData fs0 src)) else none) :=
    fun _ _ _ _ => ⟨rfl, hclean.1, hclean.2⟩
  cases verify with
  | false =>
    have hrem : env.srcVanishes = true ∨ env.removeSrcFault = true := by
      simp only [Bool.false_and, Bool.false_or] at hfail
      exact Bool.or_eq_true _ _ |>.mp hfail
    unfold verifyAndRemove
    rw [if_neg (by simp)]
    exact removeSrcStep_commit env fs4 fs0 src dst hsd hsrc hdst hfile
      hrem _ _ _
  | true =>
    unfold verifyAndRemove
    rw [if_pos rfl]
    by_cases ho : env.verifyOpenFault = true
    · rw [if_pos ho]
      exact herr _ _ _ _
    · rw [if_neg ho]
      cases hrf : env.verifyReadFault with
      | some canceled =>
        exact herr _ _ _ _
      | none =>
        by_cases hc : env.verifyCloseFault = true
        · rw [if_pos hc]
          exact herr _ _ _ _
        · rw [if_neg hc]
          by_cases hh : env.hash (fileData fs0 src) ≠
              env.hash (env.verifyContent.getD (fileData fs0 src))
          · rw [if_pos hh]
            exact herr _ _ _ _
          · rw [if_neg hh]
            have hrem : env.srcVanishes = true ∨
                env.removeSrcFault = true := by
              have hopen : env.verifyOpenFault = false :=
                Bool.not_eq_true _ |>.mp ho
              have hclose : env.verifyCloseFault = false :=
                Bool.not_eq_true _ |>.mp hc
              rw [hopen, hrf, hclose] at hfail
              simp only [Option.isSome_none, Bool.or_false,
                Bool.false_or, Bool.true_and, decide_eq_true_eq] at hfail
              rcases Bool.or_eq_true _ _ |>.mp hfail with h | h
              · rcases Bool.or_eq_true _ _ |>.mp h with h' | h'
                · exact absurd (of_decide_eq_true h') hh
                · exact Or.inl h'
              · exact Or.inr h
            exact removeSrcStep_commit env fs4 fs0 src dst hsd hsrc hdst
              hfile hrem _ _ _

/-- Claim C1, counterexample.  The claim states that once the temporary
file has been renamed onto the destination, no later failure deletes
the committed destination file, and that a post-write verify mismatch
leaves the destination committed.  On the code this is false: after
the rename, `workingFile` is reassigned to `dst`
(mode_move.go line 220), so the deferred cleanup of a verify-pass hash
mismatch removes the committed destination file whenever the source
still exists.  Concretely: source `/m/f` holds byte `0`, the verify
re-read observes byte `1` (disk corruption), the digest is the
identity; the operation fails with the verify mismatch and the
destination file is gone while the source remains. -/
theorem copyAndRemove_verify_mismatch_deletes_dst :
    (copyAndRemove { benignEnv (fun l => l) with verifyContent := some [1] }
        true
        (fun q => if q = [comp "m", comp "f"] then some (.file [0]) else none)
        [comp "m", comp "f"] [comp "r", comp "f"]).err =
      some .verifyHashMismatch ∧
    (copyAndRemove { benignEnv (fun l => l) with verifyContent := some [1] }
        true
        (fun q => if q = [comp "m", comp "f"] then some (.file [0]) else none)
        [comp "m", comp "f"] [comp "r", comp "f"]).fs
        [comp "r", comp "f"] = none ∧
    (copyAndRemove { benignEnv (fun l => l) with verifyContent := some [1] }
        true
        (fun q => if q = [comp "m", comp "f"] then some (.file [0]) else none)
        [comp "m", comp "f"] [comp "r", comp "f"]).fs
        [comp "m", comp "f"] = some (.file [0]) := by
  refine ⟨?_, ?_, ?_⟩ <;> decide

/-- Claim C1 (amended).  For every copy-based transfer that reaches the
rename commit, a later failure — a verify-pass fault or digest
mismatch, a vanished source, or a failure to remove the source — is
fatal (an error is returned), and the program never removes the source
file itself on these paths; but the deferred cleanup now targets the
committed destination (`workingFile = dst`): when the source still
exists, its stat succeeds and the cleanup removal succeeds, the
committed destination file is removed (leaving the source as the
single copy); the destination is left committed exactly when the
source has vanished, its stat fails, or the cleanup removal fails. -/
theorem copyAndRemove_commit_boundary (env : CopyEnv) (verify : Bool)
    (fs0 : FS) (src dst : GoPath)
    (hd : dst ≠ []) (hsd : src ≠ dst) (hts : src ≠ tempPath dst)
    (hfile : isFile fs0 src = true)
    (h1 : env.openSrcFault = false) (h2 : env.createFault = false)
    (h3 : env.copyFault = none) (h4 : env.corrupt = none)
    (h5 : env.syncFault = false) (h6 : env.closeInFault = false)
    (h7 : env.closeOutFault = false) (h8 : env.renameFault = false)
    (hfail :
      ((verify &&
        (env.verifyOpenFault || env.verifyReadFault.isSome ||
          env.verifyCloseFault ||
          decide (env.hash (fileData fs0 src) ≠
            env.hash (env.verifyContent.getD (fileData fs0 src))))) ||
        env.srcVanishes || env.removeSrcFault) = true) :
    ((copyAndRemove env verify fs0 src dst).err).isSome = true ∧
    (copyAndRemove env verify fs0 src dst).fs src =
      (if env.srcVanishes = true then none else fs0 src) ∧
    (copyAndRemove env verify fs0 src dst).fs dst =
      (if env.srcVanishes || env.statSrcFault || env.removeTempFault
        then some (.file (fileData fs0 src)) else none) := by
  rw [copyAndRemove_reach_commit env verify fs0 src dst hfile
    h1 h2 h3 h4 h5 h6 h7 h8]
  have hcommit := commit_src_dst env fs0 src dst hd hsd hts
  have h := verifyAndRemove_commit env verify _ fs0 src dst hsd
    hcommit.1 hcommit.2 hfile hfail
  exact ⟨h.1, by rw [h.2.1, hcommit.1], h.2.2⟩

/-- Claim C1 (amended), witness: a concrete post-commit failure (the
final `Remove(src)` fails) on which the amended theorem's hypotheses
hold; the destination is removed by the cleanup and the source stays. -/
theorem copyAndRemove_commit_boundary_witness :
    ((copyAndRemove { benignEnv (fun l => l) with removeSrcFault := true }
        false
        (fun q => if q = [comp "m", comp "f"] then some (.file [0]) else none)
        [comp "m", comp "f"] [comp "r", comp "f"]).err).isSome = true ∧
    (copyAndRemove { benignEnv (fun l => l) with removeSrcFault := true }
        false
        (fun q => if q = [comp "m", comp "f"] then some (.file [0]) else none)
        [comp "m", comp "f"] [comp "r", comp "f"]).fs
        [comp "m", comp "f"] =
      (if ({ benignEnv (fun l => l) with
              removeSrcFault := true } : CopyEnv).srcVanishes = true
        then none
        else (fun q => if q = [comp "m", comp "f"] then some (.file [0])
          else none : FS) [comp "m", comp "f"]) ∧
    (copyAndRemove { benignEnv (fun l => l) with removeSrcFault := true }
        false
        (fun q => if q = [comp "m", comp "f"] then some (.file [0]) else none)
        [comp "m", comp "f"] [comp "r", comp "f"]).fs
        [comp "r", comp "f"] =
      (if ({ benignEnv (fun l => l) with
              removeSrcFault := true } : CopyEnv).srcVanishes ||
          ({ benignEnv (fun l => l) with
              removeSrcFault := true } : CopyEnv).statSrcFault ||
          ({ benignEnv (fun l => l) with
              removeSrcFault := true } : CopyEnv).removeTempFault
        then some (.file (fileData
          (fun q => if q = [comp "m", comp "f"] then some (.file [0])
            else none) [comp "m", comp "f"]))
        else none) :=
  copyAndRemove_commit_boundary
    { benignEnv (fun l => l) with removeSrcFault := true } false
    (fun q => if q = [comp "m", comp "f"] then some (.file [0]) else none)
    [comp "m", comp "f"] [comp "r", comp "f"]
    (by decide) (by decide) (by decide) (by decide)
    (by decide) (by decide) (by decide) (by decide)
    (by decide) (by decide) (by decide) (by decide) (by decide)

/-- Any failure of the copy/sync/close/digest-compare steps (before the
rename commit) returns an error record whose filesystem is the cleanup
of the written temporary file. -/
theorem copyAndRemove_fault_shape (env : CopyEnv) (verify : Bool)
    (fs0 : FS) (src dst : GoPath)
    (hfile : isFile fs0 src = true)
    (h1 : env.openSrcFault = false) (h2 : env.createFault = false)
    (hfail :
      (env.copyFault.isSome || env.syncFault || env.closeInFault ||
        env.closeOutFault ||
        decide (env.hash (fileData fs0 src) ≠
          env.hash (env.corrupt.getD (fileData fs0 src)))) = true) :
    ∃ w sh dh e,
      copyAndRemove env verify fs0 src dst =
        { fs := cleanupFS env
            (setFS
              (setFS (if env.srcVanishes then eraseFS fs0 src else fs0)
                (tempPath dst) (.file []))
              (tempPath dst) (.file w))
            (tempPath dst) src
          srcHash := sh, dstHash := dh, verifyHash := none
          err := some e } := by
  unfold copyAndRemove
  simp only [hfile, h1, h2, Bool.not_true, Bool.false_or, Bool.or_false,
    Bool.not_false]
  rw [if_neg (by simp), if_neg (by simp)]
  cases hcf : env.copyFault with
  | some wc =>
    obtain ⟨w, canc⟩ := wc
    exact ⟨w, none, none, .ioErr canc, rfl⟩
  | none =>
    rw [hcf] at hfail
    simp only [Option.isSome_none, Bool.false_or] at hfail
    by_cases hs : env.syncFault = true
    · exact ⟨env.corrupt.getD (fileData fs0 src), none, none, .syncErr,
        by rw [if_pos hs]⟩
    · rw [if_neg hs]
      by_cases hci : env.closeInFault = true
      · exact ⟨env.corrupt.getD (fileData fs0 src), none, none,
          .closeInErr, by rw [if_pos hci]⟩
      · rw [if_neg hci]
        by_cases hco : env.closeOutFault = true
        · exact ⟨env.corrupt.getD (fileData fs0 src), none, none,
            .closeOutErr, by rw [if_pos hco]⟩
        · rw [if_neg hco]
          have hmm : env.hash (fileData fs0 src) ≠
              env.hash (env.corrupt.getD (fileData fs0 src)) := by
            rw [Bool.not_eq_true _ |>.mp hs,
              Bool.not_eq_true _ |>.mp hci,
              Bool.not_eq_true _ |>.mp hco] at hfail
            simpa using hfail
          exact ⟨env.corrupt.getD (fileData fs0 src),
            some (env.hash (fileData fs0 src)),
            some (env.hash (env.corrupt.getD (fileData fs0 src))),
            .memHashMismatch, by rw [if_pos hmm]⟩

/-- Evaluation of the pre-commit cleanup on the three paths of
interest: temporary file, destination, source. -/
theorem cleanup_precommit_eval (env : CopyEnv) (fs0 : FS)
    (src dst : GoPath) (w : List Nat) (hd : dst ≠ [])
    (hts : src ≠ tempPath dst)
    (hfile : isFile fs0 src = true) :
    (env.srcVanishes = false → env.statSrcFault = false →
      env.removeTempFault = false →
      cleanupFS env
          (setFS
            (setFS (if env.srcVanishes then eraseFS fs0 src else fs0)
              (tempPath dst) (.file []))
            (tempPath dst) (.file w))
          (tempPath dst) src (tempPath dst) = none ∧
      cleanupFS env
          (setFS
            (setFS (if env.srcVanishes then eraseFS fs0 src else fs0)
              (tempPath dst) (.file []))
            (tempPath dst) (.file w))
          (tempPath dst) src dst = fs0 dst ∧
      cleanupFS env
          (setFS
            (setFS (if env.srcVanishes then eraseFS fs0 src else fs0)
              (tempPath dst) (.file []))
            (tempPath dst) (.file w))
          (tempPath dst) src src = fs0 src) ∧
    ((env.srcVanishes || env.statSrcFault) = true →
      (cleanupFS env
          (setFS
            (setFS (if env.srcVanishes then eraseFS fs0 src else fs0)
              (tempPath dst) (.file []))
            (tempPath dst) (.file w))
          (tempPath dst) src (tempPath dst)).isSome = true) := by
  have hdt : dst ≠ tempPath dst := fun h => tempPath_ne dst hd h.symm
  constructor
  · intro hv hstat hrt
    have hsrc3 :
        (setFS
          (setFS (if env.srcVanishes then eraseFS fs0 src else fs0)
            (tempPath dst) (.file []))
          (tempPath dst) (.file w)) src = fs0 src := by
      rw [setFS_other _ _ _ _ hts, setFS_other _ _ _ _ hts]
      simp [hv]
    have hissome : ((setFS
        (setFS (if env.srcVanishes then eraseFS fs0 src else fs0)
          (tempPath dst) (.file []))
        (tempPath dst) (.file w)) src).isSome = true := by
      rw [hsrc3]; exact isFile_isSome fs0 src hfile
    unfold cleanupFS
    rw [if_neg (by simp [hstat]), if_pos hissome, if_neg (by simp [hrt])]
    refine ⟨eraseFS_same _ _, ?_, ?_⟩
    · rw [eraseFS_other _ _ _ hdt, setFS_other _ _ _ _ hdt,
        setFS_other _ _ _ _ hdt]
      simp [hv]
    · rw [eraseFS_other _ _ _ hts, hsrc3]
  · intro hvs
    have htemp :
        ((setFS
          (setFS (if env.srcVanishes then eraseFS fs0 src else fs0)
            (tempPath dst) (.file []))
          (tempPath dst) (.file w)) (tempPath dst)).isSome = true := by
      rw [setFS_same]; rfl
    unfold cleanupFS
    by_cases hstat : env.statSrcFault = true
    · rw [if_pos hstat]; exact htemp
    · rw [if_neg hstat]
      have hv : env.srcVanishes = true := by
        rcases Bool.or_eq_true _ _ |>.mp hvs with h | h
        · exact h
        · exact absurd h hstat
      have hsrcnone :
          (setFS
            (setFS (if env.srcVanishes then eraseFS fs0 src else fs0)
              (tempPath dst) (.file []))
            (tempPath dst) (.file w)) src = none := by
        rw [setFS_other _ _ _ _ hts, setFS_other _ _ _ _ hts]
        simp [hv, eraseFS]
      rw [if_neg (by rw [hsrcnone]; simp)]
      exact htemp

/-- Claim C3.  For every copy-based transfer that fails before the
rename commit — a failure during copy (cancellation included), sync,
close, or an in-memory digest mismatch — the operation returns an
error, and: if the source file still exists at cleanup time (it did
not vanish and its stat succeeds) and the cleanup removal works, the
temporary file at `dst + ".mirsht"` is removed and neither the
temporary path nor the destination path holds anything that was not
there before (the source is also untouched); if the source has
disappeared or its existence cannot be determined, the temporary
artifact is deliberately not removed. -/
theorem copyAndRemove_precommit_cleanup (env : CopyEnv) (verify : Bool)
    (fs0 : FS) (src dst : GoPath)
    (hd : dst ≠ []) (hts : src ≠ tempPath dst)
    (hfile : isFile fs0 src = true)
    (h1 : env.openSrcFault = false) (h2 : env.createFault = false)
    (hfail :
      (env.copyFault.isSome || env.syncFault || env.closeInFault ||
        env.closeOutFault ||
        decide (env.hash (fileData fs0 src) ≠
          env.hash (env.corrupt.getD (fileData fs0 src)))) = true) :
    ((copyAndRemove env verify fs0 src dst).err).isSome = true ∧
    (env.srcVanishes = false → env.statSrcFault = false →
      env.removeTempFault = false →
      (copyAndRemove env verify fs0 src dst).fs (tempPath dst) = none ∧
      (copyAndRemove env verify fs0 src dst).fs dst = fs0 dst ∧
      (copyAndRemove env verify fs0 src dst).fs src = fs0 src) ∧
    ((env.srcVanishes || env.statSrcFault) = true →
      ((copyAndRemove env verify fs0 src dst).fs
        (tempPath dst)).isSome = true) := by
  obtain ⟨w, sh, dh, e, hshape⟩ :=
    copyAndRemove_fault_shape env verify fs0 src dst hfile h1 h2 hfail
  have heval := cleanup_precommit_eval env fs0 src dst w hd hts hfile
  rw [hshape]
  exact ⟨rfl, heval.1, heval.2⟩

/-- Claim C3, witness: a mid-copy cancellation with the source still in
place removes the temporary file and leaves source and destination
paths as they were. -/
theorem copyAndRemove_precommit_cleanup_witness :
    (copyAndRemove
        { benignEnv (fun l => l) with copyFault := some ([5], true) }
        false
        (fun q => if q = [comp "m", comp "f"] then some (.file [5, 6])
          else none)
        [comp "m", comp "f"] [comp "r", comp "f"]).fs
        (tempPath [comp "r", comp "f"]) = none ∧
    (copyAndRemove
        { benignEnv (fun l => l) with copyFault := some ([5], true) }
        false
        (fun q => if q = [comp "m", comp "f"] then some (.file [5, 6])
          else none)
        [comp "m", comp "f"] [comp "r", comp "f"]).fs
        [comp "m", comp "f"] = some (.file [5, 6]) := by
  have h := copyAndRemove_precommit_cleanup
    { benignEnv (fun l => l) with copyFault := some ([5], true) }
    false
    (fun q => if q = [comp "m", comp "f"] then some (.file [5, 6])
      else none)
    [comp "m", comp "f"] [comp "r", comp "f"]
    (by decide) (by decide) (by decide) (by decide) (by decide)
    (by decide)
  obtain ⟨htemp, _, hsrc⟩ := h.2.1 rfl rfl rfl
  exact ⟨htemp, by rw [hsrc]; decide⟩

/-- The cleanup never touches any path other than the current
`workingFile`. -/
theorem cleanupFS_other (env : CopyEnv) (fs : FS) (wf src q : GoPath)
    (h : q ≠ wf) : cleanupFS env fs wf src q = fs q := by
  unfold cleanupFS
  split_ifs <;> simp [eraseFS, h]

/-- Variant of `copyAndRemove_reach_commit` that allows in-memory
corruption as long as the two digests still agree (the only thing the
code checks). -/
theorem copyAndRemove_reach_commit_hash (env : CopyEnv) (verify : Bool)
    (fs0 : FS) (src dst : GoPath)
    (hfile : isFile fs0 src = true)
    (h1 : env.openSrcFault = false) (h2 : env.createFault = false)
    (h3 : env.copyFault = none)
    (h5 : env.syncFault = false) (h6 : env.closeInFault = false)
    (h7 : env.closeOutFault = false) (h8 : env.renameFault = false)
    (hhash : env.hash (fileData fs0 src) =
      env.hash (env.corrupt.getD (fileData fs0 src))) :
    copyAndRemove env verify fs0 src dst =
      verifyAndRemove env verify
        (setFS
          (eraseFS
            (setFS
              (setFS (if env.srcVanishes then eraseFS fs0 src else fs0)
                (tempPath dst) (.file []))
              (tempPath dst)
              (.file (env.corrupt.getD (fileData fs0 src))))
            (tempPath dst))
          dst (.file (env.corrupt.getD (fileData fs0 src))))
        src dst (env.corrupt.getD (fileData fs0 src))
        (env.hash (fileData fs0 src))
        (env.hash (env.corrupt.getD (fileData fs0 src))) := by
  unfold copyAndRemove
  simp [hfile, h1, h2, h3, h5, h6, h7, h8, hhash]

/-- With every step up to the digest comparison fault-free but the two
digests disagreeing, `copyAndRemove` aborts with the in-memory
integrity error and runs the cleanup on the temporary file. -/
theorem copyAndRemove_mismatch_shape (env : CopyEnv) (verify : Bool)
    (fs0 : FS) (src dst : GoPath)
    (hfile : isFile fs0 src = true)
    (h1 : env.openSrcFault = false) (h2 : env.createFault = false)
    (h3 : env.copyFault = none)
    (h5 : env.syncFault = false) (h6 : env.closeInFault = false)
    (h7 : env.closeOutFault = false)
    (hne : env.hash (fileData fs0 src) ≠
      env.hash (env.corrupt.getD (fileData fs0 src))) :
    copyAndRemove env verify fs0 src dst =
      { fs := cleanupFS env
          (setFS
            (setFS (if env.srcVanishes then eraseFS fs0 src else fs0)
              (tempPath dst) (.file []))
            (tempPath dst)
            (.file (env.corrupt.getD (fileData fs0 src))))
          (tempPath dst) src
        srcHash := some (env.hash (fileData fs0 src))
        dstHash := some (env.hash (env.corrupt.getD (fileData fs0 src)))
        verifyHash := none
        err := some .memHashMismatch } := by
  unfold copyAndRemove
  simp [hfile, h1, h2, h3, h5, h6, h7, hne]

/-- A `copyAndRemove` run that returns no error passed every check up
to the digest comparison. -/
theorem copyAndRemove_ok_flags (env : CopyEnv) (verify : Bool)
    (fs0 : FS) (src dst : GoPath)
    (hok : (copyAndRemove env verify fs0 src dst).err = none) :
    isFile fs0 src = true ∧ env.openSrcFault = false ∧
    env.createFault = false ∧ env.copyFault = none ∧
    env.syncFault = false ∧ env.closeInFault = false ∧
    env.closeOutFault = false ∧
    env.hash (fileData fs0 src) =
      env.hash (env.corrupt.getD (fileData fs0 src)) ∧
    env.renameFault = false := by
  simp only [copyAndRemove] at hok
  by_cases hf : isFile fs0 src = true
  case neg =>
    rw [if_pos (by simp [Bool.not_eq_true _ |>.mp hf])] at hok
    simp at hok
  case pos =>
  by_cases h1 : env.openSrcFault = true
  · rw [if_pos (by simp [h1])] at hok
    simp at hok
  · rw [if_neg (by simp [hf, Bool.not_eq_true _ |>.mp h1])] at hok
    by_cases h2 : env.createFault = true
    · rw [if_pos h2] at hok
      simp at hok
    · rw [if_neg h2] at hok
      cases hcf : env.copyFault with
      | some wc =>
        rw [hcf] at hok
        obtain ⟨w, canc⟩ := wc
        simp at hok
      | none =>
        rw [hcf] at hok
        by_cases h5 : env.syncFault = true
        · rw [if_pos h5] at hok
          simp at hok
        · rw [if_neg h5] at hok
          by_cases h6 : env.closeInFault = true
          · rw [if_pos h6] at hok
            simp at hok
          · rw [if_neg h6] at hok
            by_cases h7 : env.closeOutFault = true
            · rw [if_pos h7] at hok
              simp at hok
            · rw [if_neg h7] at hok
              by_cases hne : env.hash (fileData fs0 src) ≠
                  env.hash (env.corrupt.getD (fileData fs0 src))
              · rw [if_pos hne] at hok
                simp at hok
              · rw [if_neg hne] at hok
                by_cases h8 : env.renameFault = true
                · rw [if_pos h8] at hok
                  simp at hok
                · exact ⟨hf, Bool.not_eq_true _ |>.mp h1,
                    Bool.not_eq_true _ |>.mp h2,
                    rfl, Bool.not_eq_true _ |>.mp h5,
                    Bool.not_eq_true _ |>.mp h6,
                    Bool.not_eq_true _ |>.mp h7,
                    not_ne_iff.mp hne,
                    Bool.not_eq_true _ |>.mp h8⟩

/-- A verify/remove phase that returns no error reports exactly the
digests it was given, and under verify mode the re-read digest agreed
with the source digest. -/
theorem verifyAndRemove_ok_hashes (env : CopyEnv) (verify : Bool)
    (fs : FS) (src dst : GoPath) (w : List Nat) (sH dH : List Nat)
    (hok : (verifyAndRemove env verify fs src dst w sH dH).err = none) :
    (verifyAndRemove env verify fs src dst w sH dH).srcHash = some sH ∧
    (verifyAndRemove env verify fs src dst w sH dH).dstHash = some dH ∧
    (verify = true →
      (verifyAndRemove env verify fs src dst w sH dH).verifyHash =
        some sH) := by
  cases verify with
  | false =>
    unfold verifyAndRemove at hok ⊢
    rw [if_neg (by simp)] at hok ⊢
    unfold removeSrcStep at hok ⊢
    by_cases hc : (!isFile fs src || env.removeSrcFault) = true
    · rw [if_pos hc] at hok
      simp at hok
    · rw [if_neg hc]
      exact ⟨rfl, rfl, fun h => by simp at h⟩
  | true =>
    unfold verifyAndRemove at hok ⊢
    rw [if_pos rfl] at hok ⊢
    by_cases ho : env.verifyOpenFault = true
    · rw [if_pos ho] at hok
      simp at hok
    · rw [if_neg ho] at hok ⊢
      cases hrf : env.verifyReadFault with
      | some canceled =>
        rw [hrf] at hok
        simp at hok
      | none =>
        rw [hrf] at hok
        by_cases hc : env.verifyCloseFault = true
        · rw [if_pos hc] at hok
          simp at hok
        · rw [if_neg hc] at hok ⊢
          by_cases hh : sH ≠ env.hash (env.verifyContent.getD w)
          · rw [if_pos hh] at hok
            simp at hok
          · rw [if_neg hh] at hok ⊢
            unfold removeSrcStep at hok ⊢
            by_cases hr : (!isFile fs src || env.removeSrcFault) = true
            · rw [if_pos hr] at hok
              simp at hok
            · rw [if_neg hr]
              refine ⟨rfl, rfl, fun _ => ?_⟩
              have := not_ne_iff.mp hh
              simp [this]

/-- Claim C6.  For every file successfully transferred via the copy
path, the digest computed over the bytes read from the source equals
the digest computed over the bytes written to the temporary file (and
both are returned), and with verify mode enabled the third digest
computed from the independent re-read of the committed destination
equals the source digest; moreover a digest mismatch between the read
side and the write side aborts the operation with the fatal in-memory
integrity error before the rename commit, leaving the destination path
untouched. -/
theorem copyAndRemove_digest_invariant (env : CopyEnv) (verify : Bool)
    (fs0 : FS) (src dst : GoPath) (hd : dst ≠ []) (hsd : src ≠ dst) :
    ((copyAndRemove env verify fs0 src dst).err = none →
      (copyAndRemove env verify fs0 src dst).srcHash =
        (copyAndRemove env verify fs0 src dst).dstHash ∧
      (copyAndRemove env verify fs0 src dst).srcHash =
        some (env.hash (fileData fs0 src)) ∧
      (verify = true →
        (copyAndRemove env verify fs0 src dst).verifyHash =
          (copyAndRemove env verify fs0 src dst).srcHash)) ∧
    (isFile fs0 src = true → env.openSrcFault = false →
      env.createFault = false → env.copyFault = none →
      env.syncFault = false → env.closeInFault = false →
      env.closeOutFault = false →
      env.hash (fileData fs0 src) ≠
        env.hash (env.corrupt.getD (fileData fs0 src)) →
      (copyAndRemove env verify fs0 src dst).err =
        some .memHashMismatch ∧
      (copyAndRemove env verify fs0 src dst).fs dst = fs0 dst) := by
  constructor
  · intro hok
    obtain ⟨hf, h1, h2, h3, h5, h6, h7, hhash, h8⟩ :=
      copyAndRemove_ok_flags env verify fs0 src dst hok
    rw [copyAndRemove_reach_commit_hash env verify fs0 src dst hf
      h1 h2 h3 h5 h6 h7 h8 hhash] at hok ⊢
    obtain ⟨hs, hdh, hv⟩ := verifyAndRemove_ok_hashes env verify _ src dst
      _ _ _ hok
    refine ⟨?_, ?_, fun hverify => ?_⟩
    · rw [hs, hdh, hhash]
    · rw [hs]
    · rw [hv hverify, hs]
  · intro hf h1 h2 h3 h5 h6 h7 hne
    rw [copyAndRemove_mismatch_shape env verify fs0 src dst hf
      h1 h2 h3 h5 h6 h7 hne]
    have hdw : dst ≠ tempPath dst := fun h => tempPath_ne dst hd h.symm
    refine ⟨rfl, ?_⟩
    show cleanupFS env
        (setFS
          (setFS (if env.srcVanishes = true then eraseFS fs0 src else fs0)
            (tempPath dst) (.file []))
          (tempPath dst) (.file (env.corrupt.getD (fileData fs0 src))))
        (tempPath dst) src dst = fs0 dst
    rw [cleanupFS_other env _ _ src dst hdw,
      setFS_other _ _ _ _ hdw, setFS_other _ _ _ _ hdw]
    by_cases hv : env.srcVanishes = true <;>
      simp [hv, eraseFS, (Ne.symm hsd : dst ≠ src)]

/-- Claim C6, witness: a fault-free verified transfer of `[7, 8]` with
the identity digest reports equal source/write digests and an equal
verify digest. -/
theorem copyAndRemove_digest_invariant_witness :
    (copyAndRemove (benignEnv (fun l => l)) true
        (fun q => if q = [comp "m", comp "f"] then some (.file [7, 8])
          else none)
        [comp "m", comp "f"] [comp "r", comp "f"]).srcHash =
      (copyAndRemove (benignEnv (fun l => l)) true
        (fun q => if q = [comp "m", comp "f"] then some (.file [7, 8])
          else none)
        [comp "m", comp "f"] [comp "r", comp "f"]).dstHash ∧
    (copyAndRemove (benignEnv (fun l => l)) true
        (fun q => if q = [comp "m", comp "f"] then some (.file [7, 8])
          else none)
        [comp "m", comp "f"] [comp "r", comp "f"]).verifyHash =
      (copyAndRemove (benignEnv (fun l => l)) true
        (fun q => if q = [comp "m", comp "f"] then some (.file [7, 8])
          else none)
        [comp "m", comp "f"] [comp "r", comp "f"]).srcHash := by
  have h := (copyAndRemove_digest_invariant (benignEnv (fun l => l)) true
    (fun q => if q = [comp "m", comp "f"] then some (.file [7, 8])
      else none)
    [comp "m", comp "f"] [comp "r", comp "f"]
    (by decide) (by decide)).1 (by decide)
  exact ⟨h.1, h.2.2 rfl⟩

/-!
### Cancellation and the shared failure policy
-/

/-- Claim C4.  Whenever a cancellation error is encountered during the
transfer walk, it aborts the walk regardless of failure-tolerant mode:
for every error recognised as `context.Canceled` (direct or
`%w`-wrapped, as produced mid-copy by the context-aware reader and
wrapped by the per-entry failure handling), the shared failure policy
`walkError` returns the error itself — under any `skipFailed` setting,
for files and directories alike — and leaves the outcome flags (in
particular the partial-failures flag) untouched; the context-aware
reader returns `(0, context.Canceled)` once the context is done; and
`%w`-wrapping preserves the `errors.Is` cancellation test. -/
theorem walkError_cancellation_aborts (skipFailed : Bool)
    (st : ProgState) (eIsDir : Bool) (err : GoErr)
    (underlying : Nat × Option GoErr)
    (hcanc : errorsIsCanceled err = true) :
    walkError skipFailed st eIsDir err = (st, .fail err) ∧
    contextReaderRead true underlying = (0, some .canceled) ∧
    errorsIsCanceled (.wrap err) = true := by
  refine ⟨?_, rfl, ?_⟩
  · unfold walkError
    rw [if_neg (by simp [hcanc])]
  · simp [errorsIsCanceled, hcanc]

/-- Claim C4, witness: a doubly wrapped `context.Canceled` (as reaches
`walkError` after the context-aware reader's error passed through
`io.Copy` and the per-entry wrapping) aborts under
`skipFailed = true` on a file entry with both flags clear. -/
theorem walkError_cancellation_aborts_witness :
    walkError true
        { hasUnmovedFiles := false, hasPartFailures := false } false
        (.wrap (.wrap .canceled)) =
      ({ hasUnmovedFiles := false, hasPartFailures := false },
        .fail (.wrap (.wrap .canceled))) ∧
    contextReaderRead true (3, none) = (0, some .canceled) ∧
    errorsIsCanceled (.wrap (.wrap (.wrap .canceled))) = true :=
  walkError_cancellation_aborts true
    { hasUnmovedFiles := false, hasPartFailures := false } false
    (.wrap (.wrap .canceled)) (3, none) (by decide)

/-!
### Exit-status selection
-/

/-- Claim C9.  When a move run completes (no fatal error) with both the
partial-failures flag and the unmoved-files flag set, the process exit
status is the partial-failure code 2, not the unmoved-files code 4;
the unmoved-files code is selected only when no partial failures were
recorded. -/
theorem runMove_exit_precedence (cfg : MoveCfg) (wenv : WalkEnv)
    (fs0 : FS) (t : FTree)
    (herr : (moveFiles cfg wenv fs0 t).2 = none) :
    ((moveFiles cfg wenv fs0 t).1.hasPartFailures = true →
      runMove cfg wenv fs0 t = exitCodePartFailure) ∧
    (runMove cfg wenv fs0 t = exitCodeUnmovedFiles →
      (moveFiles cfg wenv fs0 t).1.hasPartFailures = false ∧
      (moveFiles cfg wenv fs0 t).1.hasUnmovedFiles = true) := by
  unfold runMove runExitCode
  rw [herr]
  constructor
  · intro hp
    rw [if_pos hp]
  · intro hcode
    by_cases hp : (moveFiles cfg wenv fs0 t).1.hasPartFailures = true
    · rw [if_pos hp] at hcode
      exact absurd hcode (by decide)
    · rw [if_neg hp] at hcode
      by_cases hu : (moveFiles cfg wenv fs0 t).1.hasUnmovedFiles = true
      · exact ⟨Bool.not_eq_true _ |>.mp hp, hu⟩
      · rw [if_neg hu] at hcode
        exact absurd hcode (by decide)

/-- Claim C9, witness: the both-flags scenario (a sync fault absorbed
by `skipFailed` plus a destination conflict) exits with code 2. -/
theorem runMove_exit_precedence_witness :
    runMove { cfgBase with skipFailed := true }
      { copyEnv := { benignEnv idHash with syncFault := true }
        directRenameFault := false } fsTwo treeTwo =
      exitCodePartFailure :=
  (runMove_exit_precedence { cfgBase with skipFailed := true }
    { copyEnv := { benignEnv idHash with syncFault := true }
      directRenameFault := false } fsTwo treeTwo (by decide)).1
    (by decide)

/-!
### Path prefix facts
-/

theorem relUnder_append (root x : GoPath) :
    relUnder root (root ++ x) = x := by
  simp [relUnder]

theorem relUnder_snoc (root p : GoPath) (n : Comp)
    (h : root.isPrefixOf p = true) :
    relUnder root (p ++ [n]) = relUnder root p ++ [n] := by
  unfold relUnder
  have hle : root.length ≤ p.length :=
    (List.isPrefixOf_iff_prefix.mp h).length_le
  rw [List.drop_append_of_le_length hle]

theorem prefix_append_cases (m a b : GoPath) (h : m <+: a ++ b) :
    m <+: a ∨ ∃ c, m = a ++ c ∧ c <+: b := by
  induction a generalizing m with
  | nil =>
    right
    exact ⟨m, rfl, h⟩
  | cons x a' ih =>
    cases m with
    | nil => exact Or.inl List.nil_prefix
    | cons y m' =>
      rw [List.cons_append, List.cons_prefix_cons] at h
      obtain ⟨rfl, h'⟩ := h
      rcases ih m' h' with hl | ⟨c, rfl, hc⟩
      · exact Or.inl (List.cons_prefix_cons.mpr ⟨rfl, hl⟩)
      · exact Or.inr ⟨c, rfl, hc⟩

theorem strictPrefixOf_snoc_false (m mp : GoPath) (n : Comp)
    (h1 : strictPrefixOf m mp = false) (h2 : mp ≠ m) :
    strictPrefixOf m (mp ++ [n]) = false := by
  unfold strictPrefixOf at h1 ⊢
  rw [Bool.and_eq_false_iff] at h1
  have hmain : ¬ m <+: mp := by
    rcases h1 with hA | hB
    · intro hc
      rw [List.isPrefixOf_iff_prefix.mpr hc] at hA
      exact absurd hA (by decide)
    · have hB' : m = mp := by simpa using hB
      exact (h2 hB'.symm).elim
  by_cases hpre : m <+: mp ++ [n]
  · have heq : m = mp ++ [n] := by
      by_cases hlen : m.length ≤ mp.length
      · exact absurd (List.prefix_of_prefix_length_le hpre
          (List.prefix_append mp [n]) hlen) hmain
      · have hle : m.length ≤ mp.length + 1 := by
          simpa using hpre.length_le
        have hl : m.length = (mp ++ [n]).length := by
          simp only [List.length_append, List.length_singleton]
          omega
        exact hpre.eq_of_length hl
    simp [heq]
  · rw [Bool.and_eq_false_iff]
    left
    rw [Bool.eq_false_iff]
    intro hc
    exact hpre (List.isPrefixOf_iff_prefix.mp hc)

/-!
### The fault-free copy operation
-/

/-- A fault-free copy succeeds and has exactly the expected effect:
source removed, destination created with the source bytes, temporary
path cleared, everything else untouched. -/
theorem copyAndRemove_benign_ok (h : List Nat → List Nat)
    (verify : Bool) (fs : FS) (src dst : GoPath)
    (hd : dst ≠ []) (hsd : src ≠ dst) (hts : src ≠ tempPath dst)
    (hf : isFile fs src = true) :
    (copyAndRemove (benignEnv h) verify fs src dst).err = none ∧
    ∀ q, (copyAndRemove (benignEnv h) verify fs src dst).fs q =
      (if q = src then none
       else if q = dst then some (.file (fileData fs src))
       else if q = tempPath dst then none
       else fs q) := by
  have hdw : dst ≠ tempPath dst := fun hh => tempPath_ne dst hd hh.symm
  rw [copyAndRemove_reach_commit (benignEnv h) verify fs src dst hf
    rfl rfl rfl rfl rfl rfl rfl rfl]
  simp only [show (benignEnv h).srcVanishes = false from rfl,
    Bool.false_eq_true, if_false]
  have h4src :
      setFS
        (eraseFS
          (setFS (setFS fs (tempPath dst) (.file []))
            (tempPath dst) (.file (fileData fs src)))
          (tempPath dst))
        dst (.file (fileData fs src)) src = fs src := by
    rw [setFS_other _ _ _ _ hsd, eraseFS_other _ _ _ hts,
      setFS_other _ _ _ _ hts, setFS_other _ _ _ _ hts]
  have hfile4 : isFile
      (setFS
        (eraseFS
          (setFS (setFS fs (tempPath dst) (.file []))
            (tempPath dst) (.file (fileData fs src)))
          (tempPath dst))
        dst (.file (fileData fs src))) src = true := by
    rw [isFile_congr _ fs src h4src]
    exact hf
  have hstep : ∀ vh,
      removeSrcStep (benignEnv h)
        (setFS
          (eraseFS
            (setFS (setFS fs (tempPath dst) (.file []))
              (tempPath dst) (.file (fileData fs src)))
            (tempPath dst))
          dst (.file (fileData fs src))) src dst
        ((benignEnv h).hash (fileData fs src))
        ((benignEnv h).hash (fileData fs src)) vh =
      { fs := eraseFS
          (setFS
            (eraseFS
              (setFS (setFS fs (tempPath dst) (.file []))
                (tempPath dst) (.file (fileData fs src)))
              (tempPath dst))
            dst (.file (fileData fs src))) src
        srcHash := some ((benignEnv h).hash (fileData fs src))
        dstHash := some ((benignEnv h).hash (fileData fs src))
        verifyHash := vh, err := none } := by
    intro vh
    unfold removeSrcStep
    rw [if_neg (by
      simp [hfile4, show (benignEnv h).removeSrcFault = false from rfl])]
  have hpoint : ∀ q, eraseFS
      (setFS
        (eraseFS
          (setFS (setFS fs (tempPath dst) (.file []))
            (tempPath dst) (.file (fileData fs src)))
          (tempPath dst))
        dst (.file (fileData fs src))) src q =
      (if q = src then none
       else if q = dst then some (.file (fileData fs src))
       else if q = tempPath dst then none
       else fs q) := by
    intro q
    by_cases hq : q = src
    · simp [hq, hsd, eraseFS]
    · rw [eraseFS_other _ _ _ hq]
      by_cases hqd : q = dst
      · simp [hqd, setFS, (Ne.symm hsd : dst ≠ src)]
      · rw [setFS_other _ _ _ _ hqd]
        by_cases hqt : q = tempPath dst
        · simp [hqt, eraseFS, (Ne.symm hts : tempPath dst ≠ src),
            tempPath_ne dst hd]
        · rw [eraseFS_other _ _ _ hqt, setFS_other _ _ _ _ hqt,
            setFS_other _ _ _ _ hqt]
          simp [hq, hqd, hqt]
  unfold verifyAndRemove
  cases verify with
  | false =>
    rw [if_neg (by simp)]
    rw [hstep none]
    exact ⟨rfl, hpoint⟩
  | true =>
    rw [if_pos rfl]
    rw [if_neg (by simp [benignEnv])]
    rw [show (benignEnv h).verifyReadFault = none from rfl]
    rw [if_neg (by simp [benignEnv])]
    rw [if_neg (by simp [benignEnv])]
    rw [hstep]
    exact ⟨rfl, hpoint⟩

/-- Frame property of a fault-free copy: no path other than the
destination is ever created or modified — every other path is either
untouched or removed. -/
theorem copyAndRemove_benign_frame (h : List Nat → List Nat)
    (verify : Bool) (fs : FS) (src dst : GoPath) (q : GoPath)
    (hq : q ≠ dst) :
    (copyAndRemove (benignEnv h) verify fs src dst).fs q = fs q ∨
    (copyAndRemove (benignEnv h) verify fs src dst).fs q = none := by
  by_cases hf : isFile fs src = true
  case neg =>
    left
    unfold copyAndRemove
    rw [if_pos (by simp [Bool.not_eq_true _ |>.mp hf])]
  case pos =>
    rw [copyAndRemove_reach_commit (benignEnv h) verify fs src dst hf
      rfl rfl rfl rfl rfl rfl rfl rfl]
    simp only [show (benignEnv h).srcVanishes = false from rfl,
      Bool.false_eq_true, if_false]
    set F4 : FS := setFS
      (eraseFS
        (setFS (setFS fs (tempPath dst) (.file []))
          (tempPath dst) (.file (fileData fs src)))
        (tempPath dst))
      dst (.file (fileData fs src)) with hF4def
    have hF4 : ∀ r, r ≠ dst → F4 r = fs r ∨ F4 r = none := by
      intro r hr
      rw [hF4def, setFS_other _ _ _ _ hr]
      by_cases hrt : r = tempPath dst
      · right
        simp [hrt, eraseFS]
      · left
        rw [eraseFS_other _ _ _ hrt, setFS_other _ _ _ _ hrt,
          setFS_other _ _ _ _ hrt]
    have hrem : ∀ vh,
        ((removeSrcStep (benignEnv h) F4 src dst
            ((benignEnv h).hash (fileData fs src))
            ((benignEnv h).hash (fileData fs src)) vh).fs q = fs q ∨
          (removeSrcStep (benignEnv h) F4 src dst
            ((benignEnv h).hash (fileData fs src))
            ((benignEnv h).hash (fileData fs src)) vh).fs q = none) := by
      intro vh
      unfold removeSrcStep
      by_cases hc : (!isFile F4 src ||
          (benignEnv h).removeSrcFault) = true
      · rw [if_pos hc]
        show cleanupFS (benignEnv h) F4 dst src q = fs q ∨
          cleanupFS (benignEnv h) F4 dst src q = none
        rw [cleanupFS_other _ _ _ _ _ hq]
        exact hF4 q hq
      · rw [if_neg hc]
        by_cases hqs : q = src
        · right
          show eraseFS F4 src q = none
          simp [hqs, eraseFS]
        · show eraseFS F4 src q = fs q ∨ eraseFS F4 src q = none
          rw [eraseFS_other _ _ _ hqs]
          exact hF4 q hq
    unfold verifyAndRemove
    cases verify with
    | false =>
      rw [if_neg (by simp)]
      exact hrem none
    | true =>
      rw [if_pos rfl]
      rw [if_neg (by simp [benignEnv])]
      rw [show (benignEnv h).verifyReadFault = none from rfl]
      rw [if_neg (by simp [benignEnv])]
      rw [if_neg (by simp [benignEnv])]
      exact hrem _

/-!
### Walk callback facts
-/

/-- The file-conflict branch of the walk callback: an existing
destination file sets the unmoved-files flag, logs the conflict, and
continues (`nil`), leaving the filesystem untouched. -/
theorem moveVisit_conflict (cfg : MoveCfg) (wenv : WalkEnv) (s : WState)
    (rel : GoPath) (d : List Nat) (e : Entry)
    (hx1 : isExcludedP (cfg.mirrorRoot ++ rel) cfg.excludes = false)
    (hg : cfg.realRoot ++ rel ≠ cfg.mirrorRoot)
    (hx2 : isExcludedP (cfg.realRoot ++ rel) cfg.excludes = false)
    (hex : s.fs (cfg.realRoot ++ rel) = some e) :
    moveVisit cfg wenv s (cfg.mirrorRoot ++ rel) (.file d) =
      ({ s with hasUnmovedFiles := true
                events := s.events ++
                  [.conflictExists (cfg.mirrorRoot ++ rel)
                    (cfg.realRoot ++ rel)] }, .ok) := by
  unfold moveVisit
  rw [if_neg (by simp [hx1])]
  simp only [relUnder_append]
  rw [if_neg hg, if_neg (by simp [hx2]), if_neg (by simp [FTree.isDir]),
    hex]

/-- The self-containment guard of the walk callback: an entry whose
computed destination path is the staging root itself is skipped with
`filepath.SkipDir` (for files and directories alike), with no
filesystem change and no outcome flag set. -/
theorem moveVisit_guard (cfg : MoveCfg) (wenv : WalkEnv) (s : WState)
    (rel : GoPath) (t : FTree)
    (hx1 : isExcludedP (cfg.mirrorRoot ++ rel) cfg.excludes = false)
    (hg : cfg.realRoot ++ rel = cfg.mirrorRoot) :
    moveVisit cfg wenv s (cfg.mirrorRoot ++ rel) t =
      ({ s with events := s.events ++
          [.skippedMirrorIntoMirror (cfg.realRoot ++ rel)] },
        .skipDir) := by
  unfold moveVisit
  rw [if_neg (by simp [hx1])]
  simp only [relUnder_append]
  rw [if_pos hg]

/-- Claim C5.  For every regular-file entry of the staging tree whose
computed destination path already exists: the walk callback does not
overwrite the destination (the filesystem is unchanged), sets the
unmoved-files flag, leaves the source in place, and returns `nil`
(continue, not an error); and in the concrete conflict scenario (both
trees hold `file.txt` with different content) the run leaves both
files untouched and exits with the unmoved-files code 4, not success
and not generic failure. -/
theorem moveFiles_existing_destination :
    (∀ (cfg : MoveCfg) (wenv : WalkEnv) (s : WState) (rel : GoPath)
        (d : List Nat) (e : Entry),
      isExcludedP (cfg.mirrorRoot ++ rel) cfg.excludes = false →
      cfg.realRoot ++ rel ≠ cfg.mirrorRoot →
      isExcludedP (cfg.realRoot ++ rel) cfg.excludes = false →
      s.fs (cfg.realRoot ++ rel) = some e →
      moveVisit cfg wenv s (cfg.mirrorRoot ++ rel) (.file d) =
        ({ s with hasUnmovedFiles := true
                  events := s.events ++
                    [.conflictExists (cfg.mirrorRoot ++ rel)
                      (cfg.realRoot ++ rel)] }, .ok)) ∧
    runMove cfgBase wenvBenign fsConflict treeConflict =
      exitCodeUnmovedFiles ∧
    (moveFiles cfgBase wenvBenign fsConflict treeConflict).1.fs
      [comp "real", comp "file.txt"] = some (.file [3]) ∧
    (moveFiles cfgBase wenvBenign fsConflict treeConflict).1.fs
      [comp "mirror", comp "file.txt"] = some (.file [1, 2]) := by
  refine ⟨fun cfg wenv s rel d e hx1 hg hx2 hex =>
    moveVisit_conflict cfg wenv s rel d e hx1 hg hx2 hex, ?_, ?_, ?_⟩
  · decide
  · decide
  · decide

/-- Claim C5, witness: the conflict branch evaluated on the concrete
conflict scenario's walk state. -/
theorem moveFiles_existing_destination_witness :
    moveVisit cfgBase wenvBenign
      { fs := fsConflict, hasUnmovedFiles := false
        hasPartFailures := false, events := [] }
      (cfgBase.mirrorRoot ++ [comp "file.txt"]) (.file [1, 2]) =
      ({ fs := fsConflict, hasUnmovedFiles := true
         hasPartFailures := false
         events := [.conflictExists
           (cfgBase.mirrorRoot ++ [comp "file.txt"])
           (cfgBase.realRoot ++ [comp "file.txt"])] }, .ok) :=
  moveFiles_existing_destination.1 cfgBase wenvBenign
    { fs := fsConflict, hasUnmovedFiles := false
      hasPartFailures := false, events := [] }
    [comp "file.txt"] [1, 2] (.file [3])
    (by decide) (by decide) (by decide) (by decide)

/-- Claim C10.  A regular-file entry whose computed destination path
equals the staging root makes the callback return `filepath.SkipDir`;
under the walker's traversal semantics a `SkipDir` bubbling out of a
file entry skips all remaining unvisited siblings in the file's parent
directory (the result does not depend on them at all), with no outcome
flag set for the skipped siblings; in the concrete nested scenario the
sibling `z.txt` after the guarded file `m` is neither moved nor
reflected in any outcome flag. -/
theorem walk_skipdir_on_file_skips_siblings :
    (∀ (cfg : MoveCfg) (wenv : WalkEnv) (s : WState) (rel : GoPath)
        (d : List Nat),
      isExcludedP (cfg.mirrorRoot ++ rel) cfg.excludes = false →
      cfg.realRoot ++ rel = cfg.mirrorRoot →
      moveVisit cfg wenv s (cfg.mirrorRoot ++ rel) (.file d) =
        ({ s with events := s.events ++
            [.skippedMirrorIntoMirror (cfg.realRoot ++ rel)] },
          .skipDir)) ∧
    (∀ (cfg : MoveCfg) (wenv : WalkEnv) (p : GoPath) (n : Comp)
        (d : List Nat) (rest : List (Comp × FTree)) (s s1 : WState),
      walkRec cfg wenv (p ++ [n]) (.file d) s = (s1, .skipDir) →
      walkChildren cfg wenv p ((n, .file d) :: rest) s =
        (s1, .skipDir)) ∧
    (moveFiles cfgNest wenvBenign fsNest treeNest).2 = none ∧
    (moveFiles cfgNest wenvBenign fsNest treeNest).1.fs
      [comp "r", comp "z.txt"] = none ∧
    (moveFiles cfgNest wenvBenign fsNest treeNest).1.fs
      [comp "r", comp "m", comp "z.txt"] = some (.file [2]) ∧
    (moveFiles cfgNest wenvBenign fsNest treeNest).1.hasUnmovedFiles =
      false ∧
    (moveFiles cfgNest wenvBenign fsNest treeNest).1.hasPartFailures =
      false := by
  refine ⟨fun cfg wenv s rel d hx1 hg =>
    moveVisit_guard cfg wenv s rel (.file d) hx1 hg,
    fun cfg wenv p n d rest s s1 hrec => ?_, ?_, ?_, ?_, ?_, ?_⟩
  · unfold walkChildren
    rw [hrec]
    rfl
  · decide
  · decide
  · decide
  · decide
  · decide

/-- Claim C10, witness: the guard and the sibling-skip evaluated on the
nested scenario (`/r/m/m` maps onto the staging root `/r/m`). -/
theorem walk_skipdir_on_file_skips_siblings_witness :
    moveVisit cfgNest wenvBenign
      { fs := fsNest, hasUnmovedFiles := false
        hasPartFailures := false, events := [] }
      (cfgNest.mirrorRoot ++ [comp "m"]) (.file [1]) =
      ({ fs := fsNest, hasUnmovedFiles := false
         hasPartFailures := false
         events := [.skippedMirrorIntoMirror
           (cfgNest.realRoot ++ [comp "m"])] }, .skipDir) ∧
    walkChildren cfgNest wenvBenign [comp "r", comp "m"]
      [(comp "m", .file [1]), (comp "z.txt", .file [2])]
      { fs := fsNest, hasUnmovedFiles := false
        hasPartFailures := false, events := [] } =
      ({ fs := fsNest, hasUnmovedFiles := false
         hasPartFailures := false
         events := [.skippedMirrorIntoMirror
           [comp "r", comp "m"]] }, .skipDir) := by
  constructor
  · exact walk_skipdir_on_file_skips_siblings.1 cfgNest wenvBenign
      { fs := fsNest, hasUnmovedFiles := false
        hasPartFailures := false, events := [] }
      [comp "m"] [1] (by decide) (by decide)
  · refine walk_skipdir_on_file_skips_siblings.2.1 cfgNest wenvBenign
      [comp "r", comp "m"] (comp "m") [1]
      [(comp "z.txt", .file [2])]
      { fs := fsNest, hasUnmovedFiles := false
        hasPartFailures := false, events := [] } _ ?_
    have hv := walk_skipdir_on_file_skips_siblings.1 cfgNest wenvBenign
      { fs := fsNest, hasUnmovedFiles := false
        hasPartFailures := false, events := [] }
      [comp "m"] [1] (by decide) (by decide)
    rw [show cfgNest.mirrorRoot = [comp "r", comp "m"] from rfl,
      show cfgNest.realRoot = [comp "r"] from rfl] at hv
    unfold walkRec
    rw [hv]
    rfl

/-!
### Frame of the walk: nothing is ever created inside the staging tree
-/

theorem walkErrorMove_fs (cfg : MoveCfg) (s : WState) (e : GoErr) :
    (walkErrorMove cfg s e).1.fs = s.fs := by
  unfold walkErrorMove
  split <;> rfl

theorem frameStep {α : Type} {a b c : Option α}
    (h1 : b = a ∨ b = none) (h2 : c = b ∨ c = none) :
    c = a ∨ c = none := by
  rcases h2 with h2 | h2
  · rcases h1 with h1 | h1
    · left
      rw [h2, h1]
    · right
      rw [h2, h1]
  · right
    exact h2

/-- A directory entry on which the callback returned `nil` passed the
self-containment guard. -/
theorem moveVisit_dir_ok_guard (cfg : MoveCfg) (wenv : WalkEnv)
    (s : WState) (p : GoPath) (ch : List (Comp × FTree))
    (hok : (moveVisit cfg wenv s p (.dir ch)).2 = .ok) :
    cfg.realRoot ++ relUnder cfg.mirrorRoot p ≠ cfg.mirrorRoot := by
  intro hg
  unfold moveVisit at hok
  by_cases hx1 : isExcludedP p cfg.excludes = true
  · rw [if_pos hx1] at hok
    simp [FTree.isDir] at hok
  · rw [if_neg hx1, if_pos hg] at hok
    simp at hok

/-- Single-callback frame: inside the staging subtree the callback only
ever removes entries (moved-away sources); it never creates or
overwrites anything there. -/
theorem moveVisit_frame (cfg : MoveCfg) (wenv : WalkEnv)
    (h : List Nat → List Nat) (hbe : wenv.copyEnv = benignEnv h)
    (s : WState) (p : GoPath) (t : FTree)
    (hIn : strictPrefixOf cfg.mirrorRoot
      (cfg.realRoot ++ relUnder cfg.mirrorRoot p) = false)
    (q : GoPath) (hq : cfg.mirrorRoot.isPrefixOf q = true) :
    (moveVisit cfg wenv s p t).1.fs q = s.fs q ∨
    (moveVisit cfg wenv s p t).1.fs q = none := by
  unfold moveVisit
  by_cases hx1 : isExcludedP p cfg.excludes = true
  · rw [if_pos hx1]
    left
    rfl
  · rw [if_neg hx1]
    by_cases hg : cfg.realRoot ++ relUnder cfg.mirrorRoot p =
        cfg.mirrorRoot
    · rw [if_pos hg]
      left
      rfl
    · rw [if_neg hg]
      have hqm : q ≠ cfg.realRoot ++ relUnder cfg.mirrorRoot p := by
        intro hqe
        have hmq : cfg.mirrorRoot <+:
            cfg.realRoot ++ relUnder cfg.mirrorRoot p := by
          rw [← hqe]
          exact List.isPrefixOf_iff_prefix.mp hq
        unfold strictPrefixOf at hIn
        rw [Bool.and_eq_false_iff] at hIn
        rcases hIn with hA | hB
        · rw [List.isPrefixOf_iff_prefix.mpr hmq] at hA
          exact absurd hA (by decide)
        · have hBe : cfg.mirrorRoot =
              cfg.realRoot ++ relUnder cfg.mirrorRoot p := by
            simpa using hB
          exact hg hBe.symm
      by_cases hx2 : isExcludedP
          (cfg.realRoot ++ relUnder cfg.mirrorRoot p) cfg.excludes =
          true
      · rw [if_pos hx2]
        left
        rfl
      · rw [if_neg hx2]
        by_cases hdir : t.isDir = true
        · rw [if_pos hdir]
          cases hst : s.fs (cfg.realRoot ++ relUnder cfg.mirrorRoot p)
            with
          | none =>
            by_cases hdry : (!cfg.dryRun) = true
            · rw [if_pos hdry]
              left
              show setFS s.fs _ _ q = s.fs q
              exact setFS_other _ _ _ _ hqm
            · rw [if_neg hdry]
              left
              rfl
          | some e =>
            left
            rfl
        · rw [if_neg hdir]
          cases hst : s.fs (cfg.realRoot ++ relUnder cfg.mirrorRoot p)
            with
          | some e =>
            left
            rfl
          | none =>
            by_cases hdry : (!cfg.dryRun) = true
            · rw [if_pos hdry]
              by_cases hdr : (cfg.direct && !wenv.directRenameFault) =
                  true
              · rw [if_pos hdr]
                show setFS (eraseFS s.fs p) _ _ q = s.fs q ∨
                  setFS (eraseFS s.fs p) _ _ q = none
                rw [setFS_other _ _ _ _ hqm]
                by_cases hqp : q = p
                · right
                  simp [hqp, eraseFS]
                · left
                  exact eraseFS_other _ _ _ hqp
              · rw [if_neg hdr, hbe]
                have hfr := copyAndRemove_benign_frame h cfg.verify
                  s.fs p (cfg.realRoot ++ relUnder cfg.mirrorRoot p)
                  q hqm
                cases herr : (copyAndRemove (benignEnv h) cfg.verify
                    s.fs p
                    (cfg.realRoot ++ relUnder cfg.mirrorRoot p)).err
                  with
                | none => exact hfr
                | some e =>
                  rw [walkErrorMove_fs]
                  exact hfr
            · rw [if_neg hdry]
              left
              rfl

mutual

/-- Whole-subtree frame: under a fault-free environment and with the
protected root not strictly inside the staging root (the invariant
threaded down the walk), walking a subtree only ever removes entries
inside the staging subtree, never creates or overwrites one. -/
theorem walkRec_frame (cfg : MoveCfg) (wenv : WalkEnv)
    (h : List Nat → List Nat) (hbe : wenv.copyEnv = benignEnv h)
    (p : GoPath) (t : FTree) (s : WState)
    (hpre : cfg.mirrorRoot.isPrefixOf p = true)
    (hIn : strictPrefixOf cfg.mirrorRoot
      (cfg.realRoot ++ relUnder cfg.mirrorRoot p) = false)
    (q : GoPath) (hq : cfg.mirrorRoot.isPrefixOf q = true) :
    (walkRec cfg wenv p t s).1.fs q = s.fs q ∨
    (walkRec cfg wenv p t s).1.fs q = none := by
  have hmv := moveVisit_frame cfg wenv h hbe s p t hIn q hq
  unfold walkRec
  cases hvis : moveVisit cfg wenv s p t with
  | mk s1 sig =>
    rw [hvis] at hmv
    cases sig with
    | ok =>
      cases t with
      | file d => exact hmv
      | dir ch =>
        have hg : cfg.realRoot ++ relUnder cfg.mirrorRoot p ≠
            cfg.mirrorRoot :=
          moveVisit_dir_ok_guard cfg wenv s p ch (by rw [hvis])
        have hch := walkChildren_frame cfg wenv h hbe p ch s1 hpre
          hIn hg q hq
        exact frameStep hmv hch
    | skipDir =>
      cases t with
      | file d => exact hmv
      | dir ch => exact hmv
    | fail e => exact hmv

/-- Children-loop version of `walkRec_frame`; the extra hypothesis
records that the parent directory passed the self-containment
guard. -/
theorem walkChildren_frame (cfg : MoveCfg) (wenv : WalkEnv)
    (h : List Nat → List Nat) (hbe : wenv.copyEnv = benignEnv h)
    (p : GoPath) (ch : List (Comp × FTree)) (s : WState)
    (hpre : cfg.mirrorRoot.isPrefixOf p = true)
    (hIn : strictPrefixOf cfg.mirrorRoot
      (cfg.realRoot ++ relUnder cfg.mirrorRoot p) = false)
    (hg : cfg.realRoot ++ relUnder cfg.mirrorRoot p ≠ cfg.mirrorRoot)
    (q : GoPath) (hq : cfg.mirrorRoot.isPrefixOf q = true) :
    (walkChildren cfg wenv p ch s).1.fs q = s.fs q ∨
    (walkChildren cfg wenv p ch s).1.fs q = none := by
  match ch with
  | [] =>
    left
    rfl
  | (n, c) :: rest =>
    have hpre' : cfg.mirrorRoot.isPrefixOf (p ++ [n]) = true := by
      rw [List.isPrefixOf_iff_prefix] at hpre ⊢
      exact hpre.trans (List.prefix_append p [n])
    have hIn' : strictPrefixOf cfg.mirrorRoot
        (cfg.realRoot ++ relUnder cfg.mirrorRoot (p ++ [n])) = false := by
      rw [relUnder_snoc cfg.mirrorRoot p n hpre, ← List.append_assoc]
      exact strictPrefixOf_snoc_false cfg.mirrorRoot
        (cfg.realRoot ++ relUnder cfg.mirrorRoot p) n hIn hg
    have hrec := walkRec_frame cfg wenv h hbe (p ++ [n]) c s hpre'
      hIn' q hq
    unfold walkChildren
    cases hr : walkRec cfg wenv (p ++ [n]) c s with
    | mk s1 sig =>
      rw [hr] at hrec
      cases sig with
      | ok =>
        exact frameStep hrec
          (walkChildren_frame cfg wenv h hbe p rest s1 hpre hIn hg q hq)
      | skipDir =>
        cases c with
        | file d =>
          simp only [FTree.isDir, Bool.false_eq_true, if_false]
          exact hrec
        | dir ch2 =>
          simp only [FTree.isDir, if_true]
          exact frameStep hrec
            (walkChildren_frame cfg wenv h hbe p rest s1 hpre hIn hg
              q hq)
      | fail e => exact hrec

end

/-- Claim C7.  During every transfer walk, an entry whose computed
destination path equals the staging root itself is skipped with
`filepath.SkipDir` (no descent, no filesystem change, no flag); and
consequently, for any fault-free run whose protected root is not
strictly inside the staging root, the walker never creates or
populates any path inside the staging tree — the staging root and its
descendants are only ever left untouched or removed (moved-away
sources), so no staging-root content is ever reintroduced into the
staging tree. -/
theorem moveFiles_self_containment :
    (∀ (cfg : MoveCfg) (wenv : WalkEnv) (s : WState) (rel : GoPath)
        (t : FTree),
      isExcludedP (cfg.mirrorRoot ++ rel) cfg.excludes = false →
      cfg.realRoot ++ rel = cfg.mirrorRoot →
      moveVisit cfg wenv s (cfg.mirrorRoot ++ rel) t =
        ({ s with events := s.events ++
            [.skippedMirrorIntoMirror (cfg.realRoot ++ rel)] },
          .skipDir)) ∧
    (∀ (cfg : MoveCfg) (wenv : WalkEnv) (h : List Nat → List Nat)
        (fs0 : FS) (t : FTree),
      wenv.copyEnv = benignEnv h →
      strictPrefixOf cfg.mirrorRoot cfg.realRoot = false →
      ∀ q, cfg.mirrorRoot.isPrefixOf q = true →
        (moveFiles cfg wenv fs0 t).1.fs q = fs0 q ∨
        (moveFiles cfg wenv fs0 t).1.fs q = none) := by
  refine ⟨fun cfg wenv s rel t hx1 hg =>
    moveVisit_guard cfg wenv s rel t hx1 hg,
    fun cfg wenv h fs0 t hbe hnn q hq => ?_⟩
  unfold moveFiles
  by_cases hm : (fs0 cfg.mirrorRoot).isNone = true
  · rw [if_pos hm]
    left
    rfl
  · rw [if_neg hm]
    by_cases hr : (fs0 cfg.realRoot).isNone = true
    · rw [if_pos hr]
      left
      rfl
    · rw [if_neg hr]
      have hpre : cfg.mirrorRoot.isPrefixOf cfg.mirrorRoot = true :=
        List.isPrefixOf_iff_prefix.mpr (List.prefix_refl _)
      have hIn : strictPrefixOf cfg.mirrorRoot
          (cfg.realRoot ++ relUnder cfg.mirrorRoot cfg.mirrorRoot) =
          false := by
        unfold relUnder
        rw [List.drop_length, List.append_nil]
        exact hnn
      have hframe := walkRec_frame cfg wenv h hbe cfg.mirrorRoot t
        { fs := fs0, hasUnmovedFiles := false
          hasPartFailures := false, events := [] } hpre hIn q hq
      cases hw : walkRec cfg wenv cfg.mirrorRoot t
          { fs := fs0, hasUnmovedFiles := false
            hasPartFailures := false, events := [] } with
      | mk s sig =>
        rw [hw] at hframe
        cases sig with
        | ok => exact hframe
        | skipDir => exact hframe
        | fail e => exact hframe

/-- Claim C7, witness: the guard on the nested scenario's entry
`/r/m/m`, and the run-level frame evaluated at the staging-tree path
`/r/m/z.txt`. -/
theorem moveFiles_self_containment_witness :
    moveVisit cfgNest wenvBenign
      { fs := fsNest, hasUnmovedFiles := false
        hasPartFailures := false, events := [] }
      (cfgNest.mirrorRoot ++ [comp "m"]) (.file [1]) =
      ({ fs := fsNest, hasUnmovedFiles := false
         hasPartFailures := false
         events := [.skippedMirrorIntoMirror
           (cfgNest.realRoot ++ [comp "m"])] }, .skipDir) ∧
    ((moveFiles cfgNest wenvBenign fsNest treeNest).1.fs
        [comp "r", comp "m", comp "z.txt"] =
      fsNest [comp "r", comp "m", comp "z.txt"] ∨
    (moveFiles cfgNest wenvBenign fsNest treeNest).1.fs
        [comp "r", comp "m", comp "z.txt"] = none) := by
  constructor
  · exact moveFiles_self_containment.1 cfgNest wenvBenign
      { fs := fsNest, hasUnmovedFiles := false
        hasPartFailures := false, events := [] }
      [comp "m"] (.file [1]) (by decide) (by decide)
  · exact moveFiles_self_containment.2 cfgNest wenvBenign idHash
      fsNest treeNest rfl (by decide)
      [comp "r", comp "m", comp "z.txt"] (by decide)

/-!
### Dry-run runs never touch the filesystem
-/

/-- A dry-run callback never changes the filesystem. -/
theorem moveVisit_dry (cfg : MoveCfg) (wenv : WalkEnv) (s : WState)
    (p : GoPath) (t : FTree) (hdry : cfg.dryRun = true) :
    (moveVisit cfg wenv s p t).1.fs = s.fs := by
  unfold moveVisit
  by_cases hx1 : isExcludedP p cfg.excludes = true
  · rw [if_pos hx1]
  · rw [if_neg hx1]
    by_cases hg : cfg.realRoot ++ relUnder cfg.mirrorRoot p =
        cfg.mirrorRoot
    · rw [if_pos hg]
    · rw [if_neg hg]
      by_cases hx2 : isExcludedP
          (cfg.realRoot ++ relUnder cfg.mirrorRoot p) cfg.excludes =
          true
      · rw [if_pos hx2]
      · rw [if_neg hx2]
        by_cases hdir : t.isDir = true
        · rw [if_pos hdir]
          cases hst : s.fs (cfg.realRoot ++ relUnder cfg.mirrorRoot p)
            with
          | none => rw [if_neg (by simp [hdry])]
          | some e => rfl
        · rw [if_neg hdir]
          cases hst : s.fs (cfg.realRoot ++ relUnder cfg.mirrorRoot p)
            with
          | some e => rfl
          | none => rw [if_neg (by simp [hdry])]

mutual

/-- A dry-run walk never changes the filesystem. -/
theorem walkRec_dry (cfg : MoveCfg) (wenv : WalkEnv) (p : GoPath)
    (t : FTree) (s : WState) (hdry : cfg.dryRun = true) :
    (walkRec cfg wenv p t s).1.fs = s.fs := by
  have hmv := moveVisit_dry cfg wenv s p t hdry
  unfold walkRec
  cases hvis : moveVisit cfg wenv s p t with
  | mk s1 sig =>
    rw [hvis] at hmv
    cases sig with
    | ok =>
      cases t with
      | file d => exact hmv
      | dir ch => rw [walkChildren_dry cfg wenv p ch s1 hdry]; exact hmv
    | skipDir =>
      cases t with
      | file d => exact hmv
      | dir ch => exact hmv
    | fail e => exact hmv

/-- Children-loop version of `walkRec_dry`. -/
theorem walkChildren_dry (cfg : MoveCfg) (wenv : WalkEnv) (p : GoPath)
    (ch : List (Comp × FTree)) (s : WState) (hdry : cfg.dryRun = true) :
    (walkChildren cfg wenv p ch s).1.fs = s.fs := by
  match ch with
  | [] => rfl
  | (n, c) :: rest =>
    have hrec := walkRec_dry cfg wenv (p ++ [n]) c s hdry
    unfold walkChildren
    cases hr : walkRec cfg wenv (p ++ [n]) c s with
    | mk s1 sig =>
      rw [hr] at hrec
      cases sig with
      | ok =>
        rw [walkChildren_dry cfg wenv p rest s1 hdry]
        exact hrec
      | skipDir =>
        cases c with
        | file d =>
          simp only [FTree.isDir, Bool.false_eq_true, if_false]
          exact hrec
        | dir ch2 =>
          simp only [FTree.isDir, if_true]
          rw [walkChildren_dry cfg wenv p rest s1 hdry]
          exact hrec
      | fail e => exact hrec

end

/-- A dry-run `moveFiles` performs zero filesystem mutations. -/
theorem moveFiles_dry (cfg : MoveCfg) (wenv : WalkEnv) (fs0 : FS)
    (t : FTree) (hdry : cfg.dryRun = true) :
    (moveFiles cfg wenv fs0 t).1.fs = fs0 := by
  unfold moveFiles
  by_cases hm : (fs0 cfg.mirrorRoot).isNone = true
  · rw [if_pos hm]
  · rw [if_neg hm]
    by_cases hr : (fs0 cfg.realRoot).isNone = true
    · rw [if_pos hr]
    · rw [if_neg hr]
      have hrec := walkRec_dry cfg wenv cfg.mirrorRoot t
        { fs := fs0, hasUnmovedFiles := false
          hasPartFailures := false, events := [] } hdry
      cases hw : walkRec cfg wenv cfg.mirrorRoot t
          { fs := fs0, hasUnmovedFiles := false
            hasPartFailures := false, events := [] } with
      | mk s sig =>
        rw [hw] at hrec
        cases sig with
        | ok => exact hrec
        | skipDir => exact hrec
        | fail e => exact hrec

/-!
### Structural facts about paths, temporaries and tree entry lists
-/

/-- Appending the temporary suffix to the last component keeps the
component count. -/
theorem tempPath_length (l : GoPath) : (tempPath l).length = l.length := by
  match l with
  | [] => rfl
  | [c] => rfl
  | c :: d :: rest =>
    rw [show tempPath (c :: d :: rest) = c :: tempPath (d :: rest)
      from rfl]
    simp [tempPath_length (d :: rest)]

/-- A temporary path agrees with its base on every proper prefix. -/
theorem tempPath_take (l : GoPath) (k : Nat) (hk : k < l.length) :
    (tempPath l).take k = l.take k := by
  match l, k with
  | [], k => exact absurd hk (by simp)
  | [c], 0 => rfl
  | [c], k + 1 => exact absurd hk (by simp)
  | c :: d :: rest, 0 => rfl
  | c :: d :: rest, k + 1 =>
    rw [show tempPath (c :: d :: rest) = c :: tempPath (d :: rest)
      from rfl]
    simp only [List.take_succ_cons]
    rw [tempPath_take (d :: rest) k (Nat.lt_of_succ_lt_succ hk)]

/-- A prefix of a temporary path is a prefix of its base, or the whole
temporary path. -/
theorem prefix_tempPath_cases (m l : GoPath)
    (h : m.isPrefixOf (tempPath l) = true) :
    m.isPrefixOf l = true ∨ m = tempPath l := by
  have hp : m <+: tempPath l := List.isPrefixOf_iff_prefix.mp h
  have hlen : m.length ≤ (tempPath l).length := hp.length_le
  rcases Nat.lt_or_ge m.length l.length with hlt | hge
  · left
    apply List.isPrefixOf_iff_prefix.mpr
    have hm : m = (tempPath l).take m.length :=
      List.prefix_iff_eq_take.mp hp
    rw [tempPath_take l m.length hlt] at hm
    rw [hm]
    exact List.take_prefix _ _
  · right
    refine hp.eq_of_length ?_
    rw [tempPath_length] at hlen ⊢
    omega

/-- The walker's destination-path map is injective on paths below the
staging root. -/
theorem mpOf_inj (cfg : MoveCfg) (e1 e2 : GoPath)
    (h1 : cfg.mirrorRoot.isPrefixOf e1 = true)
    (h2 : cfg.mirrorRoot.isPrefixOf e2 = true)
    (heq : mpOf cfg e1 = mpOf cfg e2) : e1 = e2 := by
  unfold mpOf relUnder at heq
  have hd : e1.drop cfg.mirrorRoot.length =
      e2.drop cfg.mirrorRoot.length := List.append_cancel_left heq
  obtain ⟨t1, ht1⟩ := List.isPrefixOf_iff_prefix.mp h1
  obtain ⟨t2, ht2⟩ := List.isPrefixOf_iff_prefix.mp h2
  have k1 : e1.drop cfg.mirrorRoot.length = t1 := by
    rw [← ht1]
    exact List.drop_left _ _
  have k2 : e2.drop cfg.mirrorRoot.length = t2 := by
    rw [← ht2]
    exact List.drop_left _ _
  rw [k1, k2] at hd
  rw [← ht1, ← ht2, hd]

mutual

/-- Every entry path of the subtree at `p` extends `p`. -/
theorem entryPaths_prefix (p : GoPath) (t : FTree) :
    ∀ e ∈ entryPaths p t, p <+: e := by
  match t with
  | .file d =>
    intro e he
    rw [show entryPaths p (.file d) = [p] from rfl] at he
    simp only [List.mem_singleton] at he
    rw [he]
  | .dir ch =>
    intro e he
    rw [show entryPaths p (.dir ch) = p :: entryPathsList p ch
      from rfl] at he
    rcases List.mem_cons.mp he with h | h
    · rw [h]
    · obtain ⟨n, c, _, hpre⟩ := entryPathsList_prefix p ch e h
      exact List.IsPrefix.trans ⟨[n], rfl⟩ hpre

/-- Every entry path of a children list extends the parent path by a
listed child name. -/
theorem entryPathsList_prefix (p : GoPath)
    (ch : List (Comp × FTree)) :
    ∀ e ∈ entryPathsList p ch,
      ∃ n c, (n, c) ∈ ch ∧ (p ++ [n]) <+: e := by
  match ch with
  | [] =>
    intro e he
    rw [show entryPathsList p [] = [] from rfl] at he
    exact absurd he (List.not_mem_nil e)
  | (n, c) :: rest =>
    intro e he
    rw [show entryPathsList p ((n, c) :: rest) =
      entryPaths (p ++ [n]) c ++ entryPathsList p rest from rfl] at he
    rcases List.mem_append.mp he with h | h
    · exact ⟨n, c, List.mem_cons_self _ _,
        entryPaths_prefix (p ++ [n]) c e h⟩
    · obtain ⟨n2, c2, hm, hpre⟩ := entryPathsList_prefix p rest e h
      exact ⟨n2, c2, List.mem_cons_of_mem _ hm, hpre⟩

end

mutual

/-- Every regular-file entry path is an entry path. -/
theorem fileEntries_mem (p : GoPath) (t : FTree) :
    ∀ ed ∈ fileEntries p t, ed.1 ∈ entryPaths p t := by
  match t with
  | .file d =>
    intro ed hed
    rw [show fileEntries p (.file d) = [(p, d)] from rfl] at hed
    simp only [List.mem_singleton] at hed
    rw [show entryPaths p (.file d) = [p] from rfl, hed]
    simp
  | .dir ch =>
    intro ed hed
    rw [show fileEntries p (.dir ch) = fileEntriesList p ch
      from rfl] at hed
    rw [show entryPaths p (.dir ch) = p :: entryPathsList p ch
      from rfl]
    exact List.mem_cons_of_mem _ (fileEntriesList_mem p ch ed hed)

/-- Children-list version of `fileEntries_mem`. -/
theorem fileEntriesList_mem (p : GoPath) (ch : List (Comp × FTree)) :
    ∀ ed ∈ fileEntriesList p ch, ed.1 ∈ entryPathsList p ch := by
  match ch with
  | [] =>
    intro ed hed
    rw [show fileEntriesList p [] = [] from rfl] at hed
    exact absurd hed (List.not_mem_nil ed)
  | (n, c) :: rest =>
    intro ed hed
    rw [show fileEntriesList p ((n, c) :: rest) =
      fileEntries (p ++ [n]) c ++ fileEntriesList p rest from rfl] at hed
    rw [show entryPathsList p ((n, c) :: rest) =
      entryPaths (p ++ [n]) c ++ entryPathsList p rest from rfl]
    rcases List.mem_append.mp hed with h | h
    · exact List.mem_append_left _ (fileEntries_mem (p ++ [n]) c ed h)
    · exact List.mem_append_right _ (fileEntriesList_mem p rest ed h)

end

/-- Two extensions of the same parent by a listed child name that
prefix a common path use the same child name. -/
theorem child_prefix_eq (p : GoPath) (n1 n2 : Comp) (e : GoPath)
    (h1 : (p ++ [n1]) <+: e) (h2 : (p ++ [n2]) <+: e) : n1 = n2 := by
  have hle : (p ++ [n1]).length ≤ (p ++ [n2]).length := by simp
  have hp := List.prefix_of_prefix_length_le h1 h2 hle
  have heq : p ++ [n1] = p ++ [n2] := hp.eq_of_length (by simp)
  have := List.append_cancel_left heq
  simpa using this

/-!
### Lockstep simulation of a dry run against a real run
-/

/-- One-callback lockstep simulation between a fault-free real run and
a dry run differing only in the dry-run flag: both produce the same
control signal, flags and events; the dry side leaves the filesystem
alone; the real side changes it only at the visited entry's destination
(a path outside the staging subtree), or — erasing only — at the entry
itself and at the destination's temporary path. -/
theorem moveVisit_sim (cfg cfgD : MoveCfg) (wenv : WalkEnv)
    (h : List Nat → List Nat) (hbe : wenv.copyEnv = benignEnv h)
    (hm : cfgD.mirrorRoot = cfg.mirrorRoot)
    (hr : cfgD.realRoot = cfg.realRoot)
    (hx : cfgD.excludes = cfg.excludes)
    (hdR : cfg.dryRun = false) (hdD : cfgD.dryRun = true)
    (hreal : cfg.realRoot ≠ [])
    (sr sd : WState) (p : GoPath) (t : FTree)
    (hpre : cfg.mirrorRoot.isPrefixOf p = true)
    (hIn : strictPrefixOf cfg.mirrorRoot (mpOf cfg p) = false)
    (hfne : t.isDir = false → p ≠ cfg.mirrorRoot)
    (hag : cfg.mirrorRoot.isPrefixOf (mpOf cfg p) = false →
      sr.fs (mpOf cfg p) = sd.fs (mpOf cfg p))
    (hcoh : ∀ d, t = .file d → sr.fs p = some (.file d))
    (hflags : sr.hasUnmovedFiles = sd.hasUnmovedFiles ∧
      sr.hasPartFailures = sd.hasPartFailures ∧ sr.events = sd.events) :
    (moveVisit cfg wenv sr p t).2 = (moveVisit cfgD wenv sd p t).2 ∧
    (moveVisit cfg wenv sr p t).1.hasUnmovedFiles =
      (moveVisit cfgD wenv sd p t).1.hasUnmovedFiles ∧
    (moveVisit cfg wenv sr p t).1.hasPartFailures =
      (moveVisit cfgD wenv sd p t).1.hasPartFailures ∧
    (moveVisit cfg wenv sr p t).1.events =
      (moveVisit cfgD wenv sd p t).1.events ∧
    (moveVisit cfgD wenv sd p t).1.fs = sd.fs ∧
    (∀ q, (moveVisit cfg wenv sr p t).1.fs q = sr.fs q ∨
      (q = mpOf cfg p ∧ cfg.mirrorRoot.isPrefixOf q = false) ∨
      ((moveVisit cfg wenv sr p t).1.fs q = none ∧
        (∃ d, t = FTree.file d) ∧
        (q = p ∨
          (q = tempPath (mpOf cfg p) ∧
            cfg.mirrorRoot.isPrefixOf (mpOf cfg p) = false)))) := by
  obtain ⟨hfl1, hfl2, hfl3⟩ := hflags
  unfold mpOf at hIn hag ⊢
  unfold moveVisit
  rw [hm, hr, hx, hdR, hdD]
  simp only [Bool.not_false, Bool.not_true]
  by_cases hx1 : isExcludedP p cfg.excludes = true
  · rw [if_pos hx1, if_pos hx1]
    exact ⟨rfl, hfl1, hfl2, by rw [hfl3], rfl, fun q => Or.inl rfl⟩
  · rw [if_neg hx1, if_neg hx1]
    by_cases hg : cfg.realRoot ++ relUnder cfg.mirrorRoot p =
        cfg.mirrorRoot
    · rw [if_pos hg, if_pos hg]
      exact ⟨rfl, hfl1, hfl2, by rw [hfl3], rfl, fun q => Or.inl rfl⟩
    · rw [if_neg hg, if_neg hg]
      have hnp : cfg.mirrorRoot.isPrefixOf
          (cfg.realRoot ++ relUnder cfg.mirrorRoot p) = false := by
        unfold strictPrefixOf at hIn
        rw [Bool.and_eq_false_iff] at hIn
        rcases hIn with hA | hB
        · exact hA
        · exfalso
          have hBe : cfg.mirrorRoot =
              cfg.realRoot ++ relUnder cfg.mirrorRoot p := by
            simpa using hB
          exact hg hBe.symm
      have hagv : sr.fs (cfg.realRoot ++ relUnder cfg.mirrorRoot p) =
          sd.fs (cfg.realRoot ++ relUnder cfg.mirrorRoot p) := hag hnp
      by_cases hx2 : isExcludedP
          (cfg.realRoot ++ relUnder cfg.mirrorRoot p) cfg.excludes =
          true
      · rw [if_pos hx2, if_pos hx2]
        exact ⟨rfl, hfl1, hfl2, by rw [hfl3], rfl, fun q => Or.inl rfl⟩
      · rw [if_neg hx2, if_neg hx2]
        by_cases hdir : t.isDir = true
        · rw [if_pos hdir, if_pos hdir]
          rw [← hagv]
          cases hst : sr.fs (cfg.realRoot ++ relUnder cfg.mirrorRoot p)
            with
          | some e =>
            exact ⟨rfl, hfl1, hfl2, hfl3, rfl, fun q => Or.inl rfl⟩
          | none =>
            rw [if_pos (trivial : True), if_neg (show ¬(false = true) from by decide)]
            refine ⟨rfl, hfl1, hfl2, by rw [hfl3], rfl, fun q => ?_⟩
            by_cases hq : q = cfg.realRoot ++ relUnder cfg.mirrorRoot p
            · right
              left
              exact ⟨hq, by rw [hq]; exact hnp⟩
            · left
              show setFS sr.fs _ _ q = sr.fs q
              exact setFS_other _ _ _ _ hq
        · rw [if_neg hdir, if_neg hdir]
          have hfp : p ≠ cfg.mirrorRoot :=
            hfne (Bool.not_eq_true _ |>.mp hdir)
          have hpd : p ≠ cfg.realRoot ++ relUnder cfg.mirrorRoot p := by
            intro he
            rw [← he] at hnp
            rw [hpre] at hnp
            exact absurd hnp (by decide)
          have hpt : p ≠
              tempPath (cfg.realRoot ++ relUnder cfg.mirrorRoot p) := by
            intro he
            have hmt : cfg.mirrorRoot.isPrefixOf
                (tempPath (cfg.realRoot ++ relUnder cfg.mirrorRoot p)) =
                true := by
              rw [← he]
              exact hpre
            rcases prefix_tempPath_cases _ _ hmt with hc | hc
            · rw [hc] at hnp
              exact absurd hnp (by decide)
            · exact hfp (by rw [he, ← hc])
          have hdn : cfg.realRoot ++ relUnder cfg.mirrorRoot p ≠ [] := by
            intro hh
            exact hreal (List.append_eq_nil.mp hh).1
          rw [← hagv]
          cases hst : sr.fs (cfg.realRoot ++ relUnder cfg.mirrorRoot p)
            with
          | some e =>
            exact ⟨rfl, by simp [hfl1], hfl2, by rw [hfl3], rfl,
              fun q => Or.inl rfl⟩
          | none =>
            rw [if_pos (trivial : True), if_neg (show ¬(false = true) from by decide)]
            cases t with
            | dir ch => exact (hdir rfl).elim
            | file d =>
            have hfile : isFile sr.fs p = true := by
              unfold isFile
              rw [hcoh d rfl]
            by_cases hdr : (cfg.direct && !wenv.directRenameFault) = true
            · rw [if_pos hdr]
              refine ⟨rfl, hfl1, hfl2, by rw [hfl3], rfl, fun q => ?_⟩
              by_cases hq : q = cfg.realRoot ++ relUnder cfg.mirrorRoot p
              · right
                left
                exact ⟨hq, by rw [hq]; exact hnp⟩
              · show setFS (eraseFS sr.fs p) _ _ q = sr.fs q ∨ _
                rw [setFS_other _ _ _ _ hq]
                by_cases hqp : q = p
                · right
                  right
                  constructor
                  · show setFS (eraseFS sr.fs p) _ _ q = none
                    rw [setFS_other _ _ _ _ hq]
                    simp [hqp, eraseFS]
                  · exact ⟨⟨d, rfl⟩, Or.inl hqp⟩
                · left
                  exact eraseFS_other _ _ _ hqp
            · rw [if_neg hdr, hbe]
              have hok := copyAndRemove_benign_ok h cfg.verify sr.fs p
                (cfg.realRoot ++ relUnder cfg.mirrorRoot p) hdn hpd hpt
                hfile
              rw [hok.1]
              refine ⟨rfl, hfl1, hfl2, by rw [hfl3], rfl, fun q => ?_⟩
              show (copyAndRemove (benignEnv h) cfg.verify sr.fs p
                  (cfg.realRoot ++ relUnder cfg.mirrorRoot p)).fs q =
                  sr.fs q ∨
                (q = cfg.realRoot ++ relUnder cfg.mirrorRoot p ∧
                  List.isPrefixOf cfg.mirrorRoot q = false) ∨
                ((copyAndRemove (benignEnv h) cfg.verify sr.fs p
                    (cfg.realRoot ++ relUnder cfg.mirrorRoot p)).fs q =
                    none ∧
                  (∃ dd, FTree.file d = FTree.file dd) ∧
                  (q = p ∨
                    (q = tempPath
                        (cfg.realRoot ++ relUnder cfg.mirrorRoot p) ∧
                      List.isPrefixOf cfg.mirrorRoot
                        (cfg.realRoot ++ relUnder cfg.mirrorRoot p) =
                        false)))
              rw [hok.2 q]
              by_cases hqp : q = p
              · right
                right
                rw [if_pos hqp]
                exact ⟨rfl, ⟨d, rfl⟩, Or.inl hqp⟩
              · rw [if_neg hqp]
                by_cases hq : q =
                    cfg.realRoot ++ relUnder cfg.mirrorRoot p
                · right
                  left
                  exact ⟨hq, by rw [hq]; exact hnp⟩
                · rw [if_neg hq]
                  by_cases hqt : q =
                      tempPath (cfg.realRoot ++ relUnder cfg.mirrorRoot p)
                  · right
                    right
                    rw [if_pos hqt]
                    exact ⟨rfl, ⟨d, rfl⟩, Or.inr ⟨hqt, hnp⟩⟩
                  · left
                    rw [if_neg hqt]

/-- The root path of a subtree is one of its entry paths. -/
theorem self_mem_entryPaths (p : GoPath) (t : FTree) :
    p ∈ entryPaths p t := by
  cases t with
  | file d =>
    rw [show entryPaths p (.file d) = [p] from rfl]
    simp
  | dir ch =>
    rw [show entryPaths p (.dir ch) = p :: entryPathsList p ch from rfl]
    exact List.mem_cons_self _ _

/-- Entry paths of a subtree below the staging root stay below the
staging root. -/
theorem entry_isPrefixOf (m p e : GoPath) (t : FTree)
    (hmp : m.isPrefixOf p = true) (he : e ∈ entryPaths p t) :
    m.isPrefixOf e = true := by
  have h1 := entryPaths_prefix p t e he
  rw [List.isPrefixOf_iff_prefix] at hmp ⊢
  exact hmp.trans h1

/-- List version of `entry_isPrefixOf`. -/
theorem entryList_isPrefixOf (m p e : GoPath)
    (ch : List (Comp × FTree)) (hmp : m.isPrefixOf p = true)
    (he : e ∈ entryPathsList p ch) : m.isPrefixOf e = true := by
  obtain ⟨n, c, _, hpre⟩ := entryPathsList_prefix p ch e he
  rw [List.isPrefixOf_iff_prefix] at hmp ⊢
  exact hmp.trans ((List.prefix_append p [n]).trans hpre)

/-- Entry paths of a children list are strictly longer than the parent
path. -/
theorem entryList_length (p e : GoPath) (ch : List (Comp × FTree))
    (he : e ∈ entryPathsList p ch) : p.length + 1 ≤ e.length := by
  obtain ⟨n, c, _, hpre⟩ := entryPathsList_prefix p ch e he
  have := hpre.length_le
  simpa using this

/-- Lift of a single callback's filesystem-change description to the
vocabulary of its subtree's entry lists. -/
theorem visit_chg_lift (cfg : MoveCfg) (p : GoPath) (t : FTree)
    (A B : FS) (q : GoPath)
    (hv : A q = B q ∨
      (q = mpOf cfg p ∧ cfg.mirrorRoot.isPrefixOf q = false) ∨
      (A q = none ∧ (∃ d, t = FTree.file d) ∧
        (q = p ∨ (q = tempPath (mpOf cfg p) ∧
          cfg.mirrorRoot.isPrefixOf (mpOf cfg p) = false)))) :
    A q = B q ∨
    (∃ e, e ∈ entryPaths p t ∧ q = mpOf cfg e ∧
      cfg.mirrorRoot.isPrefixOf q = false) ∨
    (A q = none ∧
      ((∃ ed, ed ∈ fileEntries p t ∧ q = ed.1) ∨
       (∃ ed, ed ∈ fileEntries p t ∧ q = tempPath (mpOf cfg ed.1) ∧
         cfg.mirrorRoot.isPrefixOf (mpOf cfg ed.1) = false))) := by
  rcases hv with hvv | ⟨hq2, hnp2⟩ | ⟨hnone, ⟨d2, hd2⟩, hw⟩
  · left
    exact hvv
  · right
    left
    exact ⟨p, self_mem_entryPaths p t, hq2, hnp2⟩
  · subst hd2
    right
    right
    refine ⟨hnone, ?_⟩
    have hmem : (p, d2) ∈ fileEntries p (FTree.file d2) := by
      rw [show fileEntries p (FTree.file d2) = [(p, d2)] from rfl]
      simp
    rcases hw with hqp | ⟨hqt, hnpt⟩
    · left
      exact ⟨(p, d2), hmem, hqp⟩
    · right
      exact ⟨(p, d2), hmem, hqt, hnpt⟩

mutual

/-- Whole-subtree lockstep simulation of a dry run against a
fault-free real run: same control signal, flags and events; the dry
walk leaves the filesystem alone; the real walk changes it only at
entry destinations outside the staging subtree or — erasing only — at
file entry paths and their destinations' temporaries. -/
theorem walkRec_sim (cfg cfgD : MoveCfg) (wenv : WalkEnv)
    (h : List Nat → List Nat) (hbe : wenv.copyEnv = benignEnv h)
    (hm : cfgD.mirrorRoot = cfg.mirrorRoot)
    (hr : cfgD.realRoot = cfg.realRoot)
    (hx : cfgD.excludes = cfg.excludes)
    (hdR : cfg.dryRun = false) (hdD : cfgD.dryRun = true)
    (hreal : cfg.realRoot ≠ [])
    (p : GoPath) (t : FTree) (sr sd : WState)
    (hpre : cfg.mirrorRoot.isPrefixOf p = true)
    (hIn : strictPrefixOf cfg.mirrorRoot (mpOf cfg p) = false)
    (hroot : p = cfg.mirrorRoot → t.isDir = true)
    (hnd : treeNodup t = true)
    (hag : ∀ e, e ∈ entryPaths p t →
      cfg.mirrorRoot.isPrefixOf (mpOf cfg e) = false →
      sr.fs (mpOf cfg e) = sd.fs (mpOf cfg e))
    (hcoh : ∀ ed, ed ∈ fileEntries p t →
      sr.fs ed.1 = some (.file ed.2))
    (hstale : ∀ ed, ed ∈ fileEntries p t →
      sd.fs (tempPath (mpOf cfg ed.1)) = none)
    (hflags : sr.hasUnmovedFiles = sd.hasUnmovedFiles ∧
      sr.hasPartFailures = sd.hasPartFailures ∧
      sr.events = sd.events) :
    (walkRec cfg wenv p t sr).2 = (walkRec cfgD wenv p t sd).2 ∧
    (walkRec cfg wenv p t sr).1.hasUnmovedFiles =
      (walkRec cfgD wenv p t sd).1.hasUnmovedFiles ∧
    (walkRec cfg wenv p t sr).1.hasPartFailures =
      (walkRec cfgD wenv p t sd).1.hasPartFailures ∧
    (walkRec cfg wenv p t sr).1.events =
      (walkRec cfgD wenv p t sd).1.events ∧
    (walkRec cfgD wenv p t sd).1.fs = sd.fs ∧
    (∀ q, (walkRec cfg wenv p t sr).1.fs q = sr.fs q ∨
      (∃ e, e ∈ entryPaths p t ∧ q = mpOf cfg e ∧
        cfg.mirrorRoot.isPrefixOf q = false) ∨
      ((walkRec cfg wenv p t sr).1.fs q = none ∧
        ((∃ ed, ed ∈ fileEntries p t ∧ q = ed.1) ∨
         (∃ ed, ed ∈ fileEntries p t ∧
           q = tempPath (mpOf cfg ed.1) ∧
           cfg.mirrorRoot.isPrefixOf (mpOf cfg ed.1) = false)))) := by
  obtain ⟨hfl1, hfl2, hfl3⟩ := hflags
  have hfne : t.isDir = false → p ≠ cfg.mirrorRoot := by
    intro hf hpm
    rw [hroot hpm] at hf
    exact absurd hf (by decide)
  have hvis := moveVisit_sim cfg cfgD wenv h hbe hm hr hx hdR hdD hreal
    sr sd p t hpre hIn hfne
    (fun hnp => hag p (self_mem_entryPaths p t) hnp)
    (fun d ht => by
      subst ht
      exact hcoh (p, d) (by
        rw [show fileEntries p (.file d) = [(p, d)] from rfl]
        simp))
    ⟨hfl1, hfl2, hfl3⟩
  unfold walkRec
  cases hvR : moveVisit cfg wenv sr p t with
  | mk sr1 sigR =>
  cases hvD : moveVisit cfgD wenv sd p t with
  | mk sd1 sigD =>
  rw [hvR, hvD] at hvis
  obtain ⟨hsig, hv1, hv2, hv3, hv4, hv5⟩ := hvis
  have hsig2 : sigR = sigD := hsig
  subst hsig2
  have hv1' : sr1.hasUnmovedFiles = sd1.hasUnmovedFiles := hv1
  have hv2' : sr1.hasPartFailures = sd1.hasPartFailures := hv2
  have hv3' : sr1.events = sd1.events := hv3
  have hv4' : sd1.fs = sd.fs := hv4
  have hv5' : ∀ q, sr1.fs q = sr.fs q ∨
      (q = mpOf cfg p ∧ cfg.mirrorRoot.isPrefixOf q = false) ∨
      (sr1.fs q = none ∧ (∃ d, t = FTree.file d) ∧
        (q = p ∨ (q = tempPath (mpOf cfg p) ∧
          cfg.mirrorRoot.isPrefixOf (mpOf cfg p) = false))) := hv5
  cases sigR with
  | fail e =>
    exact ⟨rfl, hv1', hv2', hv3', hv4',
      fun q => visit_chg_lift cfg p t sr1.fs sr.fs q (hv5' q)⟩
  | skipDir =>
    cases t with
    | file d =>
      exact ⟨rfl, hv1', hv2', hv3', hv4',
        fun q =>
          visit_chg_lift cfg p (.file d) sr1.fs sr.fs q (hv5' q)⟩
    | dir ch =>
      exact ⟨rfl, hv1', hv2', hv3', hv4',
        fun q =>
          visit_chg_lift cfg p (.dir ch) sr1.fs sr.fs q (hv5' q)⟩
  | ok =>
    cases t with
    | file d =>
      exact ⟨rfl, hv1', hv2', hv3', hv4',
        fun q =>
          visit_chg_lift cfg p (.file d) sr1.fs sr.fs q (hv5' q)⟩
    | dir ch =>
      have hgd : cfg.realRoot ++ relUnder cfg.mirrorRoot p ≠
          cfg.mirrorRoot :=
        moveVisit_dir_ok_guard cfg wenv sr p ch (by rw [hvR])
      have hnd2 : (nodupKeys ch && treeNodupList ch) = true := hnd
      obtain ⟨hndk, hndl⟩ := Bool.and_eq_true_iff.mp hnd2
      have hEP : entryPaths p (FTree.dir ch) =
          p :: entryPathsList p ch := rfl
      have hFE : fileEntries p (FTree.dir ch) =
          fileEntriesList p ch := rfl
      have hag1 : ∀ e, e ∈ entryPathsList p ch →
          cfg.mirrorRoot.isPrefixOf (mpOf cfg e) = false →
          sr1.fs (mpOf cfg e) = sd1.fs (mpOf cfg e) := by
        intro e he hnpe
        rw [hv4']
        rcases hv5' (mpOf cfg e) with hc | ⟨hq2, hnp2⟩ |
          ⟨_, ⟨d2, hd2⟩, _⟩
        · rw [hc]
          exact hag e
            (by rw [hEP]; exact List.mem_cons_of_mem _ he) hnpe
        · exfalso
          have hme : cfg.mirrorRoot.isPrefixOf e = true :=
            entryList_isPrefixOf _ _ _ _ hpre he
          have hep : e = p := mpOf_inj cfg e p hme hpre hq2
          have hlen := entryList_length p e ch he
          rw [hep] at hlen
          omega
        · exact FTree.noConfusion hd2
      have hcoh1 : ∀ ed, ed ∈ fileEntriesList p ch →
          sr1.fs ed.1 = some (.file ed.2) := by
        intro ed hed
        rcases hv5' ed.1 with hc | ⟨hq2, hnp2⟩ | ⟨_, ⟨d2, hd2⟩, _⟩
        · rw [hc]
          exact hcoh ed (by rw [hFE]; exact hed)
        · exfalso
          have hme : cfg.mirrorRoot.isPrefixOf ed.1 = true :=
            entryList_isPrefixOf _ _ _ _ hpre
              (fileEntriesList_mem p ch ed hed)
          rw [hnp2] at hme
          exact absurd hme (by decide)
        · exact FTree.noConfusion hd2
      have hstale1 : ∀ ed, ed ∈ fileEntriesList p ch →
          sd1.fs (tempPath (mpOf cfg ed.1)) = none := by
        intro ed hed
        rw [hv4']
        exact hstale ed (by rw [hFE]; exact hed)
      have hch := walkChildren_sim cfg cfgD wenv h hbe hm hr hx hdR hdD
        hreal p ch sr1 sd1 hpre hIn hgd hndk hndl hag1 hcoh1 hstale1
        ⟨hv1', hv2', hv3'⟩
      obtain ⟨hc0, hc1, hc2, hc3, hc4, hc5⟩ := hch
      refine ⟨hc0, hc1, hc2, hc3, hc4.trans hv4', fun q => ?_⟩
      rcases hc5 q with hcc | ⟨e, he, hq2, hnp2⟩ | ⟨hnone, hw⟩
      · rcases hv5' q with hvv | ⟨hq2, hnp2⟩ | ⟨hnone2, ⟨d2, hd2⟩, _⟩
        · left
          rw [hcc, hvv]
        · right
          left
          exact ⟨p, by rw [hEP]; exact List.mem_cons_self _ _, hq2,
            hnp2⟩
        · exact FTree.noConfusion hd2
      · right
        left
        exact ⟨e, by rw [hEP]; exact List.mem_cons_of_mem _ he, hq2,
          hnp2⟩
      · right
        right
        refine ⟨hnone, ?_⟩
        rcases hw with ⟨ed, hed, hqe⟩ | ⟨ed, hed, hqe, hnpe2⟩
        · left
          exact ⟨ed, by rw [hFE]; exact hed, hqe⟩
        · right
          exact ⟨ed, by rw [hFE]; exact hed, hqe, hnpe2⟩

/-- Children-loop version of `walkRec_sim`; the extra hypothesis
records that the parent directory passed the self-containment
guard. -/
theorem walkChildren_sim (cfg cfgD : MoveCfg) (wenv : WalkEnv)
    (h : List Nat → List Nat) (hbe : wenv.copyEnv = benignEnv h)
    (hm : cfgD.mirrorRoot = cfg.mirrorRoot)
    (hr : cfgD.realRoot = cfg.realRoot)
    (hx : cfgD.excludes = cfg.excludes)
    (hdR : cfg.dryRun = false) (hdD : cfgD.dryRun = true)
    (hreal : cfg.realRoot ≠ [])
    (p : GoPath) (ch : List (Comp × FTree)) (sr sd : WState)
    (hpre : cfg.mirrorRoot.isPrefixOf p = true)
    (hIn : strictPrefixOf cfg.mirrorRoot (mpOf cfg p) = false)
    (hg : cfg.realRoot ++ relUnder cfg.mirrorRoot p ≠ cfg.mirrorRoot)
    (hndk : nodupKeys ch = true) (hndl : treeNodupList ch = true)
    (hag : ∀ e, e ∈ entryPathsList p ch →
      cfg.mirrorRoot.isPrefixOf (mpOf cfg e) = false →
      sr.fs (mpOf cfg e) = sd.fs (mpOf cfg e))
    (hcoh : ∀ ed, ed ∈ fileEntriesList p ch →
      sr.fs ed.1 = some (.file ed.2))
    (hstale : ∀ ed, ed ∈ fileEntriesList p ch →
      sd.fs (tempPath (mpOf cfg ed.1)) = none)
    (hflags : sr.hasUnmovedFiles = sd.hasUnmovedFiles ∧
      sr.hasPartFailures = sd.hasPartFailures ∧
      sr.events = sd.events) :
    (walkChildren cfg wenv p ch sr).2 =
      (walkChildren cfgD wenv p ch sd).2 ∧
    (walkChildren cfg wenv p ch sr).1.hasUnmovedFiles =
      (walkChildren cfgD wenv p ch sd).1.hasUnmovedFiles ∧
    (walkChildren cfg wenv p ch sr).1.hasPartFailures =
      (walkChildren cfgD wenv p ch sd).1.hasPartFailures ∧
    (walkChildren cfg wenv p ch sr).1.events =
      (walkChildren cfgD wenv p ch sd).1.events ∧
    (walkChildren cfgD wenv p ch sd).1.fs = sd.fs ∧
    (∀ q, (walkChildren cfg wenv p ch sr).1.fs q = sr.fs q ∨
      (∃ e, e ∈ entryPathsList p ch ∧ q = mpOf cfg e ∧
        cfg.mirrorRoot.isPrefixOf q = false) ∨
      ((walkChildren cfg wenv p ch sr).1.fs q = none ∧
        ((∃ ed, ed ∈ fileEntriesList p ch ∧ q = ed.1) ∨
         (∃ ed, ed ∈ fileEntriesList p ch ∧
           q = tempPath (mpOf cfg ed.1) ∧
           cfg.mirrorRoot.isPrefixOf (mpOf cfg ed.1) = false)))) := by
  obtain ⟨hfl1, hfl2, hfl3⟩ := hflags
  match ch with
  | [] =>
    exact ⟨rfl, hfl1, hfl2, hfl3, rfl, fun q => Or.inl rfl⟩
  | (n, c) :: rest =>
    have hndk2 : (rest.all (fun x => !(x.1 = n)) && nodupKeys rest) =
        true := hndk
    obtain ⟨hall, hndkr⟩ := Bool.and_eq_true_iff.mp hndk2
    have hndl2 : (treeNodup c && treeNodupList rest) = true := hndl
    obtain ⟨hndc, hndlr⟩ := Bool.and_eq_true_iff.mp hndl2
    have hEPL : entryPathsList p ((n, c) :: rest) =
        entryPaths (p ++ [n]) c ++ entryPathsList p rest := rfl
    have hFEL : fileEntriesList p ((n, c) :: rest) =
        fileEntries (p ++ [n]) c ++ fileEntriesList p rest := rfl
    have hpre' : cfg.mirrorRoot.isPrefixOf (p ++ [n]) = true := by
      rw [List.isPrefixOf_iff_prefix] at hpre ⊢
      exact hpre.trans (List.prefix_append p [n])
    have hIn' : strictPrefixOf cfg.mirrorRoot (mpOf cfg (p ++ [n])) =
        false := by
      unfold mpOf
      rw [relUnder_snoc cfg.mirrorRoot p n hpre, ← List.append_assoc]
      exact strictPrefixOf_snoc_false cfg.mirrorRoot
        (cfg.realRoot ++ relUnder cfg.mirrorRoot p) n hIn hg
    have hroot' : (p ++ [n]) = cfg.mirrorRoot → c.isDir = true := by
      intro hh
      exfalso
      have h1 : cfg.mirrorRoot.length ≤ p.length := by
        rw [List.isPrefixOf_iff_prefix] at hpre
        exact hpre.length_le
      have h2 : (p ++ [n]).length = p.length + 1 := by simp
      rw [hh] at h2
      omega
    have hagc : ∀ e, e ∈ entryPaths (p ++ [n]) c →
        cfg.mirrorRoot.isPrefixOf (mpOf cfg e) = false →
        sr.fs (mpOf cfg e) = sd.fs (mpOf cfg e) := fun e he =>
      hag e (by rw [hEPL]; exact List.mem_append_left _ he)
    have hcohc : ∀ ed, ed ∈ fileEntries (p ++ [n]) c →
        sr.fs ed.1 = some (.file ed.2) := fun ed hed =>
      hcoh ed (by rw [hFEL]; exact List.mem_append_left _ hed)
    have hstalec : ∀ ed, ed ∈ fileEntries (p ++ [n]) c →
        sd.fs (tempPath (mpOf cfg ed.1)) = none := fun ed hed =>
      hstale ed (by rw [hFEL]; exact List.mem_append_left _ hed)
    have hrec := walkRec_sim cfg cfgD wenv h hbe hm hr hx hdR hdD hreal
      (p ++ [n]) c sr sd hpre' hIn' hroot' hndc hagc hcohc hstalec
      ⟨hfl1, hfl2, hfl3⟩
    unfold walkChildren
    cases hR : walkRec cfg wenv (p ++ [n]) c sr with
    | mk sr1 sigR =>
    cases hD : walkRec cfgD wenv (p ++ [n]) c sd with
    | mk sd1 sigD =>
    rw [hR, hD] at hrec
    obtain ⟨hsig, h1, h2, h3, h4, h5⟩ := hrec
    have hsig2 : sigR = sigD := hsig
    subst hsig2
    have h1' : sr1.hasUnmovedFiles = sd1.hasUnmovedFiles := h1
    have h2' : sr1.hasPartFailures = sd1.hasPartFailures := h2
    have h3' : sr1.events = sd1.events := h3
    have h4' : sd1.fs = sd.fs := h4
    have h5' : ∀ q, sr1.fs q = sr.fs q ∨
        (∃ e, e ∈ entryPaths (p ++ [n]) c ∧ q = mpOf cfg e ∧
          cfg.mirrorRoot.isPrefixOf q = false) ∨
        (sr1.fs q = none ∧
          ((∃ ed, ed ∈ fileEntries (p ++ [n]) c ∧ q = ed.1) ∨
           (∃ ed, ed ∈ fileEntries (p ++ [n]) c ∧
             q = tempPath (mpOf cfg ed.1) ∧
             cfg.mirrorRoot.isPrefixOf (mpOf cfg ed.1) = false))) := h5
    have hliftL : ∀ q, sr1.fs q = sr.fs q ∨
        (∃ e, e ∈ entryPathsList p ((n, c) :: rest) ∧ q = mpOf cfg e ∧
          cfg.mirrorRoot.isPrefixOf q = false) ∨
        (sr1.fs q = none ∧
          ((∃ ed, ed ∈ fileEntriesList p ((n, c) :: rest) ∧
             q = ed.1) ∨
           (∃ ed, ed ∈ fileEntriesList p ((n, c) :: rest) ∧
             q = tempPath (mpOf cfg ed.1) ∧
             cfg.mirrorRoot.isPrefixOf (mpOf cfg ed.1) = false))) := by
      intro q
      rcases h5' q with hvv | ⟨e, he, hq2, hnp2⟩ | ⟨hnone, hw⟩
      · left
        exact hvv
      · right
        left
        exact ⟨e, by rw [hEPL]; exact List.mem_append_left _ he, hq2,
          hnp2⟩
      · right
        right
        refine ⟨hnone, ?_⟩
        rcases hw with ⟨ed, hed, hqe⟩ | ⟨ed, hed, hqe, hnpe2⟩
        · left
          exact ⟨ed, by rw [hFEL]; exact List.mem_append_left _ hed,
            hqe⟩
        · right
          exact ⟨ed, by rw [hFEL]; exact List.mem_append_left _ hed,
            hqe, hnpe2⟩
    have hagr : ∀ e, e ∈ entryPathsList p rest →
        cfg.mirrorRoot.isPrefixOf (mpOf cfg e) = false →
        sr1.fs (mpOf cfg e) = sd1.fs (mpOf cfg e) := by
      intro e he hnpe
      rw [h4']
      rcases h5' (mpOf cfg e) with hc | ⟨e2, he2, hq2, hnp2⟩ |
        ⟨hnone, hw⟩
      · rw [hc]
        exact hag e
          (by rw [hEPL]; exact List.mem_append_right _ he) hnpe
      · exfalso
        have hme : cfg.mirrorRoot.isPrefixOf e = true :=
          entryList_isPrefixOf _ _ _ _ hpre he
        have hme2 : cfg.mirrorRoot.isPrefixOf e2 = true :=
          entry_isPrefixOf _ _ _ _ hpre' he2
        have hee : e = e2 := mpOf_inj cfg e e2 hme hme2 hq2
        obtain ⟨n2, c2, hm2, hpre2⟩ := entryPathsList_prefix p rest e he
        have hpc : (p ++ [n]) <+: e := by
          rw [hee]
          exact entryPaths_prefix _ _ _ he2
        have hnn : n2 = n := child_prefix_eq p n2 n e hpre2 hpc
        have hx2 := List.all_eq_true.mp hall (n2, c2) hm2
        rw [hnn] at hx2
        simp at hx2
      · rcases hw with ⟨ed2, hed2, hqe⟩ | ⟨ed2, hed2, hqe, hnpe2⟩
        · exfalso
          have hmf : cfg.mirrorRoot.isPrefixOf ed2.1 = true :=
            entry_isPrefixOf _ _ _ _ hpre'
              (fileEntries_mem _ _ ed2 hed2)
          rw [← hqe] at hmf
          rw [hnpe] at hmf
          exact absurd hmf (by decide)
        · rw [hnone, hqe]
          exact (hstale ed2
            (by rw [hFEL]; exact List.mem_append_left _ hed2)).symm
    have hcohr : ∀ ed, ed ∈ fileEntriesList p rest →
        sr1.fs ed.1 = some (.file ed.2) := by
      intro ed hed
      rcases h5' ed.1 with hc | ⟨e2, he2, hq2, hnp2⟩ | ⟨hnone, hw⟩
      · rw [hc]
        exact hcoh ed
          (by rw [hFEL]; exact List.mem_append_right _ hed)
      · exfalso
        have hme : cfg.mirrorRoot.isPrefixOf ed.1 = true :=
          entryList_isPrefixOf _ _ _ _ hpre
            (fileEntriesList_mem p rest ed hed)
        rw [hnp2] at hme
        exact absurd hme (by decide)
      · rcases hw with ⟨ed2, hed2, hqe⟩ | ⟨ed2, hed2, hqe, hnpe2⟩
        · exfalso
          have h1e := fileEntriesList_mem p rest ed hed
          obtain ⟨n2, c2, hm2, hpre2⟩ :=
            entryPathsList_prefix p rest ed.1 h1e
          have hpc : (p ++ [n]) <+: ed.1 := by
            rw [hqe]
            exact entryPaths_prefix _ _ _
              (fileEntries_mem _ _ ed2 hed2)
          have hnn : n2 = n := child_prefix_eq p n2 n ed.1 hpre2 hpc
          have hx2 := List.all_eq_true.mp hall (n2, c2) hm2
          rw [hnn] at hx2
          simp at hx2
        · exfalso
          have hme : cfg.mirrorRoot.isPrefixOf ed.1 = true :=
            entryList_isPrefixOf _ _ _ _ hpre
              (fileEntriesList_mem p rest ed hed)
          rw [hqe] at hme
          rcases prefix_tempPath_cases _ _ hme with hcp | hcp
          · rw [hcp] at hnpe2
            exact absurd hnpe2 (by decide)
          · have hlen := entryList_length p ed.1 rest
              (fileEntriesList_mem p rest ed hed)
            have hlm : cfg.mirrorRoot.length ≤ p.length := by
              rw [List.isPrefixOf_iff_prefix] at hpre
              exact hpre.length_le
            have hml : cfg.mirrorRoot.length = ed.1.length := by
              rw [hcp, hqe, tempPath_length]
            omega
    have hstaler : ∀ ed, ed ∈ fileEntriesList p rest →
        sd1.fs (tempPath (mpOf cfg ed.1)) = none := by
      intro ed hed
      rw [h4']
      exact hstale ed
        (by rw [hFEL]; exact List.mem_append_right _ hed)
    have hrest := walkChildren_sim cfg cfgD wenv h hbe hm hr hx hdR hdD
      hreal p rest sr1 sd1 hpre hIn hg hndkr hndlr hagr hcohr hstaler
      ⟨h1', h2', h3'⟩
    obtain ⟨hr0, hr1, hr2, hr3, hr4, hr5⟩ := hrest
    have hCHG : ∀ q,
        (walkChildren cfg wenv p rest sr1).1.fs q = sr.fs q ∨
        (∃ e, e ∈ entryPathsList p ((n, c) :: rest) ∧ q = mpOf cfg e ∧
          cfg.mirrorRoot.isPrefixOf q = false) ∨
        ((walkChildren cfg wenv p rest sr1).1.fs q = none ∧
          ((∃ ed, ed ∈ fileEntriesList p ((n, c) :: rest) ∧
             q = ed.1) ∨
           (∃ ed, ed ∈ fileEntriesList p ((n, c) :: rest) ∧
             q = tempPath (mpOf cfg ed.1) ∧
             cfg.mirrorRoot.isPrefixOf (mpOf cfg ed.1) = false))) := by
      intro q
      rcases hr5 q with hcc | ⟨e, he, hq2, hnp2⟩ | ⟨hnone, hw⟩
      · rcases hliftL q with hvv | hrst | ⟨hnone2, hw2⟩
        · left
          rw [hcc, hvv]
        · right
          left
          exact hrst
        · right
          right
          exact ⟨by rw [hcc]; exact hnone2, hw2⟩
      · right
        left
        exact ⟨e, by rw [hEPL]; exact List.mem_append_right _ he, hq2,
          hnp2⟩
      · right
        right
        refine ⟨hnone, ?_⟩
        rcases hw with ⟨ed, hed, hqe⟩ | ⟨ed, hed, hqe, hnpe2⟩
        · left
          exact ⟨ed, by rw [hFEL]; exact List.mem_append_right _ hed,
            hqe⟩
        · right
          exact ⟨ed, by rw [hFEL]; exact List.mem_append_right _ hed,
            hqe, hnpe2⟩
    cases sigR with
    | ok =>
      exact ⟨hr0, hr1, hr2, hr3, hr4.trans h4', hCHG⟩
    | skipDir =>
      cases c with
      | file d =>
        exact ⟨rfl, h1', h2', h3', h4', hliftL⟩
      | dir ch2 =>
        exact ⟨hr0, hr1, hr2, hr3, hr4.trans h4', hCHG⟩
    | fail e =>
      exact ⟨rfl, h1', h2', h3', h4', hliftL⟩

end

/-- `run`'s exit selection only reads the error and the two flags. -/
theorem runExitCode_congr (a b : WState × Option MoveErr)
    (h2 : a.2 = b.2) (hu : a.1.hasUnmovedFiles = b.1.hasUnmovedFiles)
    (hp : a.1.hasPartFailures = b.1.hasPartFailures) :
    runExitCode a = runExitCode b := by
  unfold runExitCode
  rw [h2, hu, hp]

/-- Run-level lockstep simulation: under a fault-free environment, a
nonempty protected root not strictly inside the staging root, a
directory staging root with pairwise-distinct child names, a
filesystem that agrees with the walked tree's regular files, and no
stale temporary files at the files' destination temporaries, a real
run and the corresponding dry run produce the same flags, events and
error. -/
theorem moveFiles_sim (cfg : MoveCfg) (wenv : WalkEnv)
    (h : List Nat → List Nat) (fs0 : FS) (t : FTree)
    (hbe : wenv.copyEnv = benignEnv h)
    (hdR : cfg.dryRun = false)
    (hreal : cfg.realRoot ≠ [])
    (hnn : strictPrefixOf cfg.mirrorRoot cfg.realRoot = false)
    (htdir : t.isDir = true)
    (hnd : treeNodup t = true)
    (hcoh0 : ∀ ed, ed ∈ fileEntries cfg.mirrorRoot t →
      fs0 ed.1 = some (.file ed.2))
    (hstale0 : ∀ ed, ed ∈ fileEntries cfg.mirrorRoot t →
      fs0 (tempPath (mpOf cfg ed.1)) = none) :
    (moveFiles cfg wenv fs0 t).1.hasUnmovedFiles =
      (moveFiles { cfg with dryRun := true }
        wenv fs0 t).1.hasUnmovedFiles ∧
    (moveFiles cfg wenv fs0 t).1.hasPartFailures =
      (moveFiles { cfg with dryRun := true }
        wenv fs0 t).1.hasPartFailures ∧
    (moveFiles cfg wenv fs0 t).1.events =
      (moveFiles { cfg with dryRun := true } wenv fs0 t).1.events ∧
    (moveFiles cfg wenv fs0 t).2 =
      (moveFiles { cfg with dryRun := true } wenv fs0 t).2 := by
  have hIn0 : strictPrefixOf cfg.mirrorRoot (mpOf cfg cfg.mirrorRoot) =
      false := by
    unfold mpOf relUnder
    rw [List.drop_length, List.append_nil]
    exact hnn
  have hpre0 : cfg.mirrorRoot.isPrefixOf cfg.mirrorRoot = true :=
    List.isPrefixOf_iff_prefix.mpr (List.prefix_refl _)
  have hsim := walkRec_sim cfg { cfg with dryRun := true } wenv h hbe
    rfl rfl rfl hdR rfl hreal cfg.mirrorRoot t
    { fs := fs0, hasUnmovedFiles := false, hasPartFailures := false
      events := [] }
    { fs := fs0, hasUnmovedFiles := false, hasPartFailures := false
      events := [] }
    hpre0 hIn0 (fun _ => htdir) hnd
    (fun e he hnp => rfl)
    (fun ed hed => hcoh0 ed hed)
    (fun ed hed => hstale0 ed hed)
    ⟨rfl, rfl, rfl⟩
  unfold moveFiles
  by_cases hc1 : (fs0 cfg.mirrorRoot).isNone = true
  · rw [if_pos hc1, if_pos hc1]
    exact ⟨rfl, rfl, rfl, rfl⟩
  · rw [if_neg hc1, if_neg hc1]
    by_cases hc2 : (fs0 cfg.realRoot).isNone = true
    · rw [if_pos hc2, if_pos hc2]
      exact ⟨rfl, rfl, rfl, rfl⟩
    · rw [if_neg hc2, if_neg hc2]
      cases hWR : walkRec cfg wenv cfg.mirrorRoot t
          { fs := fs0, hasUnmovedFiles := false
            hasPartFailures := false, events := [] } with
      | mk s1 g1 =>
      cases hWD : walkRec { cfg with dryRun := true } wenv
          cfg.mirrorRoot t
          { fs := fs0, hasUnmovedFiles := false
            hasPartFailures := false, events := [] } with
      | mk s2 g2 =>
      rw [hWR, hWD] at hsim
      obtain ⟨hsig, h1, h2, h3, _, _⟩ := hsim
      have hsig2 : g1 = g2 := hsig
      subst hsig2
      have h1' : s1.hasUnmovedFiles = s2.hasUnmovedFiles := h1
      have h2' : s1.hasPartFailures = s2.hasPartFailures := h2
      have h3' : s1.events = s2.events := h3
      cases g1 with
      | ok => exact ⟨h1', h2', h3', rfl⟩
      | skipDir => exact ⟨h1', h2', h3', rfl⟩
      | fail e => exact ⟨h1', h2', h3', rfl⟩

/-- Claim C8 (amended).  A dry-run transfer performs zero filesystem
mutations, unconditionally.  The classification half holds for runs
whose real counterpart copies without faults, with a nonempty
protected root that is not strictly inside the staging root, a
directory staging root with pairwise-distinct child names whose
regular files agree with the filesystem, and no stale temporary file
at any pending destination's temporary path: then the dry run produces
exactly the flags, classification events, error and exit code of the
real run.  (Without the stale-temporary assumption the two runs'
classifications can diverge; see the counterexample.) -/
theorem moveFiles_dry_run_fidelity :
    (∀ (cfg : MoveCfg) (wenv : WalkEnv) (fs0 : FS) (t : FTree),
      cfg.dryRun = true → (moveFiles cfg wenv fs0 t).1.fs = fs0) ∧
    (∀ (cfg : MoveCfg) (wenv : WalkEnv) (h : List Nat → List Nat)
        (fs0 : FS) (t : FTree),
      wenv.copyEnv = benignEnv h →
      cfg.dryRun = false →
      cfg.realRoot ≠ [] →
      strictPrefixOf cfg.mirrorRoot cfg.realRoot = false →
      t.isDir = true →
      treeNodup t = true →
      (∀ ed, ed ∈ fileEntries cfg.mirrorRoot t →
        fs0 ed.1 = some (.file ed.2)) →
      (∀ ed, ed ∈ fileEntries cfg.mirrorRoot t →
        fs0 (tempPath (mpOf cfg ed.1)) = none) →
      (moveFiles { cfg with dryRun := true }
          wenv fs0 t).1.hasUnmovedFiles =
        (moveFiles cfg wenv fs0 t).1.hasUnmovedFiles ∧
      (moveFiles { cfg with dryRun := true }
          wenv fs0 t).1.hasPartFailures =
        (moveFiles cfg wenv fs0 t).1.hasPartFailures ∧
      (moveFiles { cfg with dryRun := true } wenv fs0 t).1.events =
        (moveFiles cfg wenv fs0 t).1.events ∧
      runMove { cfg with dryRun := true } wenv fs0 t =
        runMove cfg wenv fs0 t) := by
  constructor
  · exact fun cfg wenv fs0 t hdry => moveFiles_dry cfg wenv fs0 t hdry
  · intro cfg wenv h fs0 t hbe hdR hreal hnn htdir hnd hcoh0 hstale0
    obtain ⟨h1, h2, h3, h4⟩ := moveFiles_sim cfg wenv h fs0 t hbe hdR
      hreal hnn htdir hnd hcoh0 hstale0
    exact ⟨h1.symm, h2.symm, h3.symm,
      runExitCode_congr _ _ h4.symm h1.symm h2.symm⟩

/-- Claim C8, counterexample: on a staging tree holding `x` and
`x.mirsht` with a stale temporary `/real/x.mirsht` left on disk, a
fault-free real run consumes the stale temporary while moving `x` and
then moves `x.mirsht` cleanly (exit 0, no unmoved files), whereas the
dry run stats the stale temporary as an existing destination and
reports a conflict (exit 4, unmoved files): the two classifications
diverge. -/
theorem dry_run_stale_temp_divergence :
    runMove cfgBase wenvBenign fsStale treeStale = exitCodeSuccess ∧
    runMove { cfgBase with dryRun := true } wenvBenign fsStale
      treeStale = exitCodeUnmovedFiles ∧
    (moveFiles cfgBase wenvBenign fsStale
      treeStale).1.hasUnmovedFiles = false ∧
    (moveFiles { cfgBase with dryRun := true } wenvBenign fsStale
      treeStale).1.hasUnmovedFiles = true :=
  ⟨by decide, by decide, by decide, by decide⟩

/-- Claim C8, witness: the amended theorem applied to the conflict
scenario — the dry run leaves the filesystem untouched and exits with
the same code as the real run. -/
theorem moveFiles_dry_run_fidelity_witness :
    (moveFiles { cfgBase with dryRun := true } wenvBenign fsConflict
      treeConflict).1.fs = fsConflict ∧
    runMove { cfgBase with dryRun := true } wenvBenign fsConflict
      treeConflict = runMove cfgBase wenvBenign fsConflict
      treeConflict :=
  ⟨moveFiles_dry_run_fidelity.1 { cfgBase with dryRun := true }
      wenvBenign fsConflict treeConflict rfl,
    (moveFiles_dry_run_fidelity.2 cfgBase wenvBenign idHash fsConflict
      treeConflict rfl rfl (by decide) (by decide) rfl (by decide)
      (by decide) (by decide)).2.2.2⟩

/-!
### Agreement of the string-level exclusion matcher with its
component-level image on normalized absolute paths
-/

/-- `dropWhile` is the identity when no element satisfies the
predicate. -/
theorem dropWhile_all_false (q : Char → Bool) (s : List Char)
    (hq : ∀ c, c ∈ s → q c = false) : s.dropWhile q = s := by
  cases s with
  | nil => rfl
  | cons c rest =>
    rw [List.dropWhile_cons]
    rw [hq c (List.mem_cons_self _ _)]
    simp

/-- `strings.TrimSpace` is the identity on strings without white
space. -/
theorem trimSpaceGo_id (s : List Char)
    (hs : ∀ c, c ∈ s → isSpace c = false) : trimSpaceGo s = s := by
  unfold trimSpaceGo
  rw [dropWhile_all_false isSpace s hs]
  rw [dropWhile_all_false isSpace s.reverse
    (fun c hc => hs c (List.mem_reverse.mp hc))]
  exact List.reverse_reverse s

/-- Every character of a joined component list is a separator or a
character of some component. -/
theorem mem_joinSlash (l : List (List Char)) (c : Char)
    (hc : c ∈ joinSlash l) : c = '/' ∨ ∃ x, x ∈ l ∧ c ∈ x := by
  match l with
  | [] => exact absurd hc (List.not_mem_nil c)
  | [x] =>
    right
    exact ⟨x, List.mem_singleton_self x, hc⟩
  | x :: y :: rest =>
    rw [show joinSlash (x :: y :: rest) =
      x ++ '/' :: joinSlash (y :: rest) from rfl] at hc
    rcases List.mem_append.mp hc with h | h
    · right
      exact ⟨x, List.mem_cons_self _ _, h⟩
    · rcases List.mem_cons.mp h with h | h
      · left
        exact h
      · rcases mem_joinSlash (y :: rest) c h with h | ⟨x2, hx2, hcx⟩
        · left
          exact h
        · right
          exact ⟨x2, List.mem_cons_of_mem _ hx2, hcx⟩

/-- Unpacking of the normal-component test. -/
theorem normalComp_spec (c : Comp) (h : normalComp c = true) :
    c ≠ [] ∧ c ≠ ['.'] ∧ c ≠ ['.', '.'] ∧
    ∀ ch, ch ∈ c → ch ≠ '/' ∧ isSpace ch = false := by
  unfold normalComp at h
  simp only [Bool.and_eq_true, List.all_eq_true, Bool.and_eq_true] at h
  obtain ⟨⟨⟨h1, h2⟩, h3⟩, h4⟩ := h
  refine ⟨by simpa using h1, by simpa using h2, by simpa using h3,
    fun ch hch => ?_⟩
  obtain ⟨ha, hb⟩ := h4 ch hch
  exact ⟨by simpa using ha, by simpa using hb⟩

/-- No character of the rendering of a normalized path is white
space. -/
theorem renderAbs_no_space (p : GoPath) (hp : normalPath p = true) :
    ∀ c, c ∈ renderAbs p → isSpace c = false := by
  intro c hc
  unfold renderAbs at hc
  rcases List.mem_cons.mp hc with h | h
  · rw [h]
    decide
  · rcases mem_joinSlash p c h with h | ⟨x, hx, hcx⟩
    · rw [h]
      decide
    · have hx2 := List.all_eq_true.mp hp x hx
      exact ((normalComp_spec x hx2).2.2.2 c hcx).2

/-- Splitting never splits inside a separator-free chunk. -/
theorem splitSlashAux_no_slash (c : List Char) (acc : List Char)
    (hc : ∀ ch, ch ∈ c → ch ≠ '/') :
    splitSlashAux c acc = [acc.reverse ++ c] := by
  match c with
  | [] => simp [splitSlashAux]
  | ch :: rest =>
    unfold splitSlashAux
    rw [if_neg (hc ch (List.mem_cons_self _ _))]
    rw [splitSlashAux_no_slash rest (ch :: acc)
      (fun x hx => hc x (List.mem_cons_of_mem _ hx))]
    simp

/-- Splitting a separator-free chunk followed by a separator yields the
chunk and continues. -/
theorem splitSlashAux_chunk (x rest2 : List Char) (acc : List Char)
    (hx : ∀ ch, ch ∈ x → ch ≠ '/') :
    splitSlashAux (x ++ '/' :: rest2) acc =
      (acc.reverse ++ x) :: splitSlashAux rest2 [] := by
  match x with
  | [] =>
    show splitSlashAux ('/' :: rest2) acc = _
    unfold splitSlashAux
    rw [if_pos rfl]
    simp
    cases rest2 with
    | nil => rfl
    | cons a b => rfl
  | ch :: xs =>
    show splitSlashAux (ch :: (xs ++ '/' :: rest2)) acc = _
    unfold splitSlashAux
    rw [if_neg (hx ch (List.mem_cons_self _ _))]
    rw [splitSlashAux_chunk xs rest2 (ch :: acc)
      (fun c hc => hx c (List.mem_cons_of_mem _ hc))]
    simp
    cases rest2 with
    | nil => rfl
    | cons a b => rfl

/-- `strings.Split` undoes the joining of separator-free components. -/
theorem splitSlash_joinSlash (p : List (List Char)) (hne : p ≠ [])
    (hp : ∀ x, x ∈ p → ∀ ch, ch ∈ x → ch ≠ '/') :
    splitSlash (joinSlash p) = p := by
  match p with
  | [] => exact absurd rfl hne
  | [x] =>
    show splitSlashAux x [] = [x]
    rw [splitSlashAux_no_slash x []
      (fun ch hch => hp x (List.mem_singleton_self x) ch hch)]
    simp
  | x :: y :: rest =>
    show splitSlashAux (x ++ '/' :: joinSlash (y :: rest)) [] =
      x :: y :: rest
    rw [splitSlashAux_chunk x (joinSlash (y :: rest)) []
      (fun ch hch => hp x (List.mem_cons_self _ _) ch hch)]
    rw [show splitSlashAux (joinSlash (y :: rest)) [] =
      splitSlash (joinSlash (y :: rest)) from rfl]
    rw [splitSlash_joinSlash (y :: rest) (by simp)
      (fun z hz ch hch => hp z (List.mem_cons_of_mem _ hz) ch hch)]
    simp

/-- `filepath.Clean`'s element loop keeps normal components
verbatim. -/
theorem foldl_cleanStep_normal (p : List (List Char))
    (acc : List (List Char))
    (hp : ∀ x, x ∈ p → normalComp x = true) :
    p.foldl (cleanStep true) acc = p.reverse ++ acc := by
  induction p generalizing acc with
  | nil => simp
  | cons c rest ih =>
    obtain ⟨h1, h2, h3, _⟩ :=
      normalComp_spec c (hp c (List.mem_cons_self _ _))
    rw [List.foldl_cons]
    rw [show cleanStep true acc c = c :: acc from by
      unfold cleanStep
      rw [if_neg (by simp [h1, h2]), if_neg h3]]
    rw [ih (c :: acc) (fun x hx => hp x (List.mem_cons_of_mem _ hx))]
    simp

/-- The element loop drops the leading empty element of a rooted split
and keeps the normal components. -/
theorem cleanParts_cons_nil_normal (p : List (List Char))
    (hp : ∀ x, x ∈ p → normalComp x = true) :
    cleanParts true ([] :: p) = p := by
  unfold cleanParts
  rw [List.foldl_cons]
  rw [show cleanStep true [] [] = [] from by
    unfold cleanStep
    rw [if_pos (by simp)]]
  rw [foldl_cleanStep_normal p [] hp]
  simp

/-- Splitting a rooted rendering: leading empty element, then the
components. -/
theorem splitSlash_renderAbs (p : GoPath) :
    splitSlash (renderAbs p) = [] :: splitSlash (joinSlash p) := by
  show splitSlashAux ('/' :: joinSlash p) [] = _
  unfold splitSlashAux
  rw [if_pos rfl]
  cases hj : joinSlash p with
  | nil => rfl
  | cons a b => rfl

/-- `filepath.Clean` fixes the rendering of a normalized absolute
path. -/
theorem cleanGo_renderAbs (p : GoPath) (hp : normalPath p = true) :
    cleanGo (renderAbs p) = renderAbs p := by
  have hns : ∀ x, x ∈ p → ∀ ch, ch ∈ x → ch ≠ '/' := fun x hx ch hch =>
    ((normalComp_spec x (List.all_eq_true.mp hp x hx)).2.2.2 ch hch).1
  have hnc : ∀ x, x ∈ p → normalComp x = true := fun x hx =>
    List.all_eq_true.mp hp x hx
  have hparts : cleanParts true (splitSlash (renderAbs p)) = p := by
    rw [splitSlash_renderAbs p]
    cases hp0 : p with
    | nil =>
      rw [show splitSlash (joinSlash []) = [[]] from rfl]
      rfl
    | cons c rest =>
      rw [← hp0]
      rw [splitSlash_joinSlash p (by rw [hp0]; simp) hns]
      exact cleanParts_cons_nil_normal p hnc
  have hhead : (renderAbs p).head? = some '/' := rfl
  unfold cleanGo
  rw [if_neg (show ¬(renderAbs p = []) by unfold renderAbs; simp)]
  simp only [hhead, eq_self_iff_true, decide_True, if_true]
  rw [hparts]
  rfl

/-- Joining a list headed by a nonempty component is nonempty. -/
theorem joinSlash_ne_nil (c : Comp) (rest : List (List Char))
    (hc : c ≠ []) : joinSlash (c :: rest) ≠ [] := by
  cases rest with
  | nil => exact hc
  | cons y ys =>
    show c ++ '/' :: joinSlash (y :: ys) ≠ []
    simp

/-- Reading the components back off the rendering of a normalized
absolute path. -/
theorem partsOfClean_renderAbs (p : GoPath) (hp : normalPath p = true) :
    partsOfClean (renderAbs p) = p := by
  have hns : ∀ x, x ∈ p → ∀ ch, ch ∈ x → ch ≠ '/' := fun x hx ch hch =>
    ((normalComp_spec x (List.all_eq_true.mp hp x hx)).2.2.2 ch hch).1
  unfold partsOfClean renderAbs
  rw [if_neg (show ¬('/' :: joinSlash p = ['.']) by simp)]
  show (if joinSlash p = [] then [] else splitSlash (joinSlash p)) = p
  cases p with
  | nil => rfl
  | cons c rest =>
    have hc : c ≠ [] :=
      (normalComp_spec c
        (List.all_eq_true.mp hp c (List.mem_cons_self _ _))).1
    rw [if_neg (joinSlash_ne_nil c rest hc)]
    exact splitSlash_joinSlash (c :: rest) (by simp) hns

/-- The rendering of normalized absolute paths is injective. -/
theorem renderAbs_inj (p e : GoPath) (hp : normalPath p = true)
    (he : normalPath e = true) (h : renderAbs e = renderAbs p) :
    e = p := by
  have h2 := congrArg partsOfClean h
  rw [partsOfClean_renderAbs e he, partsOfClean_renderAbs p hp] at h2
  exact h2

/-- The common-prefix scan on a prefix pair. -/
theorem dropCommon_isPrefixOf (e p : GoPath)
    (h : e.isPrefixOf p = true) :
    dropCommon e p = ([], p.drop e.length) := by
  match e, p with
  | [], p => rfl
  | a :: as, [] => exact absurd h (by simp [List.isPrefixOf])
  | a :: as, b :: bs =>
    have h2 : (a == b && as.isPrefixOf bs) = true := h
    obtain ⟨hab, hrest⟩ := Bool.and_eq_true_iff.mp h2
    have hab2 : a = b := by simpa using hab
    show (if a = b then dropCommon as bs else _) = _
    rw [if_pos hab2]
    rw [dropCommon_isPrefixOf as bs hrest]
    rfl

/-- The common-prefix scan on a non-prefix pair leaves a nonempty base
remainder. -/
theorem dropCommon_not_prefix (e p : GoPath)
    (h : e.isPrefixOf p = false) :
    ∃ x tl, (dropCommon e p).1 = x :: tl := by
  match e, p with
  | [], p => exact absurd h (by simp [List.isPrefixOf])
  | a :: as, [] => exact ⟨a, as, rfl⟩
  | a :: as, b :: bs =>
    by_cases hab : a = b
    · have h2 : (a == b && as.isPrefixOf bs) = false := h
      rw [show (a == b) = true by simpa using hab] at h2
      rw [Bool.true_and] at h2
      obtain ⟨x, tl, hx⟩ := dropCommon_not_prefix as bs h2
      refine ⟨x, tl, ?_⟩
      show (if a = b then dropCommon as bs
        else (a :: as, b :: bs)).1 = x :: tl
      rw [if_pos hab]
      exact hx
    · refine ⟨a, as, ?_⟩
      show (if a = b then dropCommon as bs
        else (a :: as, b :: bs)).1 = a :: as
      rw [if_neg hab]

/-- The two-dot head test on a component with at least two
characters. -/
theorem compDD_cons2 (x1 x2 : Char) (xs : List Char) :
    compDD (x1 :: x2 :: xs) = (x1 == '.' && x2 == '.') := by
  by_cases h1 : x1 = '.'
  · subst h1
    by_cases h2 : x2 = '.'
    · subst h2
      simp [compDD]
    · have : compDD ('.' :: x2 :: xs) = false := by
        unfold compDD
        split
        · rename_i heq
          injection heq with ha hb
          injection hb with hb2 hb3
          exact absurd hb2 h2
        · rfl
      rw [this]
      simp [h2]
  · have : compDD (x1 :: x2 :: xs) = false := by
      unfold compDD
      split
      · rename_i heq
        injection heq with ha hb
        exact absurd ha h1
      · rfl
    rw [this]
    simp [h1]

/-- The string-prefix test for `".."` against a joined component list
is exactly the two-dot head test of its first component. -/
theorem hasPrefix_dd_joinSlash (r0 : List Char)
    (rest : List (List Char)) :
    hasPrefixGo ['.', '.'] (joinSlash (r0 :: rest)) = compDD r0 := by
  match r0, rest with
  | [], [] => rfl
  | [], y :: ys =>
    show List.isPrefixOf ['.', '.'] ('/' :: joinSlash (y :: ys)) = _
    simp [List.isPrefixOf, compDD]
  | [x], [] =>
    show List.isPrefixOf ['.', '.'] [x] = compDD [x]
    simp [List.isPrefixOf, compDD]
  | [x], y :: ys =>
    show List.isPrefixOf ['.', '.'] (x :: '/' :: joinSlash (y :: ys)) =
      compDD [x]
    simp [List.isPrefixOf, compDD]
  | x1 :: x2 :: xs, [] =>
    show List.isPrefixOf ['.', '.'] (x1 :: x2 :: xs) = _
    rw [compDD_cons2]
    by_cases e1 : x1 = '.' <;> by_cases e2 : x2 = '.' <;>
      simp_all [List.isPrefixOf, eq_comm] <;>
      rw [show (x1 == '.') = false from beq_eq_false_iff_ne.mpr e1,
        show ('.' == x1) = false from
          beq_eq_false_iff_ne.mpr (Ne.symm e1)] <;>
      simp
  | x1 :: x2 :: xs, y :: ys =>
    show List.isPrefixOf ['.', '.']
      (x1 :: x2 :: (xs ++ '/' :: joinSlash (y :: ys))) = _
    rw [compDD_cons2]
    by_cases e1 : x1 = '.' <;> by_cases e2 : x2 = '.' <;>
      simp_all [List.isPrefixOf, eq_comm] <;>
      rw [show (x1 == '.') = false from beq_eq_false_iff_ne.mpr e1,
        show ('.' == x1) = false from
          beq_eq_false_iff_ne.mpr (Ne.symm e1)] <;>
      simp

/-- A strict prefix leaves a nonempty remainder. -/
theorem drop_ne_nil_of_prefix (e p : GoPath)
    (hpre : e.isPrefixOf p = true) (hne : p ≠ e) :
    p.drop e.length ≠ [] := by
  intro hd
  have h1 : e.length ≤ p.length :=
    (List.isPrefixOf_iff_prefix.mp hpre).length_le
  have h2 : p.length - e.length = 0 := by
    have := congrArg List.length hd
    simpa using this
  have h3 : p.length = e.length := by omega
  exact hne ((List.isPrefixOf_iff_prefix.mp hpre).eq_of_length
    h3.symm).symm

/-- `List.any` over a mapped list respects pointwise equality on
members. -/
theorem any_map_congr {α β : Type} (l : List α) (f : α → β)
    (g : β → Bool) (k : α → Bool)
    (h : ∀ x, x ∈ l → g (f x) = k x) : (l.map f).any g = l.any k := by
  induction l with
  | nil => rfl
  | cons a rest ih =>
    rw [List.map_cons, List.any_cons, List.any_cons]
    rw [h a (List.mem_cons_self _ _)]
    rw [ih (fun x hx => h x (List.mem_cons_of_mem _ hx))]

/-- Pointwise agreement of the matcher's per-entry test with its
component-level image, on normalized absolute paths. -/
theorem excl_entry_agree (p e : GoPath) (hp : normalPath p = true)
    (he : normalPath e = true) :
    ((renderAbs p == renderAbs e) ||
      (match relGo (renderAbs e) (renderAbs p) with
       | some r => !hasPrefixGo ['.', '.'] r
       | none => false)) =
    (p == e ||
      (e.isPrefixOf p && !(p == e) &&
        !compDD ((p.drop e.length).headD []))) := by
  by_cases hpe : p = e
  · subst hpe
    simp
  · have hrne : renderAbs e ≠ renderAbs p := fun hh =>
      hpe (renderAbs_inj p e hp he hh).symm
    rw [show (renderAbs p == renderAbs e) = false from
      beq_eq_false_iff_ne.mpr (fun hh => hrne hh.symm)]
    rw [show (p == e) = false from beq_eq_false_iff_ne.mpr hpe]
    simp only [Bool.false_or, Bool.not_false, Bool.and_true]
    unfold relGo
    simp only [cleanGo_renderAbs e he, cleanGo_renderAbs p hp]
    rw [if_neg hrne]
    rw [if_neg (show ¬(((renderAbs e).head? = some '/') ≠
        ((renderAbs p).head? = some '/')) by
      unfold renderAbs
      simp)]
    simp only [partsOfClean_renderAbs e he, partsOfClean_renderAbs p hp]
    by_cases hpre : e.isPrefixOf p = true
    · simp only [dropCommon_isPrefixOf e p hpre]
      rw [if_neg (show ¬(([] : List (List Char)).head? =
          some ['.', '.']) by simp)]
      have hdne : p.drop e.length ≠ [] :=
        drop_ne_nil_of_prefix e p hpre hpe
      obtain ⟨r0, rest, hdrop⟩ := List.exists_cons_of_ne_nil hdne
      rw [hpre]
      simp only [List.map_nil, List.nil_append, hdrop]
      rw [if_neg (show ¬(r0 :: rest = []) by simp)]
      show (!hasPrefixGo ['.', '.'] (joinSlash (r0 :: rest))) =
        (true && !compDD ((r0 :: rest).headD []))
      rw [hasPrefix_dd_joinSlash]
      simp
    · have hpref : e.isPrefixOf p = false :=
        Bool.not_eq_true _ |>.mp hpre
      rw [hpref]
      simp only [Bool.false_and]
      obtain ⟨x, tl, hx⟩ := dropCommon_not_prefix e p hpref
      by_cases hxdd : x = ['.', '.']
      · rw [if_pos (by rw [hx, hxdd]; rfl)]
      · rw [if_neg (show ¬((dropCommon e p).1.head? =
            some ['.', '.']) by
          rw [hx]
          simp [hxdd])]
        rw [hx]
        rw [if_neg (show ¬((x :: tl).map (fun _ => ['.', '.']) ++
            (dropCommon e p).2 = []) by simp)]
        show (!hasPrefixGo ['.', '.']
          (joinSlash (['.', '.'] :: (tl.map (fun _ => ['.', '.']) ++
            (dropCommon e p).2)))) = false
        rw [hasPrefix_dd_joinSlash]
        rfl

/-- Claim C2 (amended).  On normalized absolute paths, `isExcluded`
returns true exactly when the path equals an exclusion entry or is a
strict descendant of an entry whose first component below the entry
does not begin with the two characters `".."` (the residue of the
source's `strings.HasPrefix(rel, "..")` test); in particular the
descendant test is a component-wise test, so `/real/dir1x` is not
excluded by `/real/dir1`, but a descendant such as `/a/..b` under `/a`
escapes exclusion. -/
theorem isExcluded_component_agreement :
    ∀ (p : GoPath) (es : List GoPath), normalPath p = true →
      (∀ e, e ∈ es → normalPath e = true) →
      isExcludedChar (renderAbs p) (es.map renderAbs) =
        isExcludedP p es := by
  intro p es hp hes
  unfold isExcludedChar isExcludedP
  simp only [trimSpaceGo_id _ (renderAbs_no_space p hp),
    cleanGo_renderAbs p hp]
  apply any_map_congr
  intro e he
  exact excl_entry_agree p e hp (hes e he)

/-- Claim C2, counterexample: `/a/..b` is a strict descendant of the
exclusion entry `/a`, yet `isExcluded` returns false for it, because
the relative path `..b` computed by `filepath.Rel` begins with the
string `".."` and the matcher's `strings.HasPrefix(rel, "..")` test
mistakes it for an outside path. -/
theorem isExcluded_dotdot_descendant_counterexample :
    isExcludedChar (renderAbs [comp "a", comp "..b"])
        ([[comp "a"]].map renderAbs) = false ∧
    isExcludedSpec [comp "a", comp "..b"] [[comp "a"]] = true := by
  constructor
  · decide
  · decide

/-- Claim C2, witness: the amended agreement evaluated at the claim's
own example `/real/dir1x` against the entry `/real/dir1` (both sides
false: no string-prefix false positive). -/
theorem isExcluded_component_agreement_witness :
    normalPath [comp "real", comp "dir1x"] = true ∧
    (∀ e, e ∈ [[comp "real", comp "dir1"]] → normalPath e = true) ∧
    isExcludedChar (renderAbs [comp "real", comp "dir1x"])
        ([[comp "real", comp "dir1"]].map renderAbs) =
      isExcludedP [comp "real", comp "dir1x"]
        [[comp "real", comp "dir1"]] :=
  ⟨by decide, by decide,
    isExcluded_component_agreement [comp "real", comp "dir1x"]
      [[comp "real", comp "dir1"]] (by decide) (by decide)⟩
